import Mathlib

/-
Verification development for the parallel oplog application core
(src/mongo/db/repl/sync_tail.cpp).

The C++ source is shallowly embedded as executable Lean functions:
  * `processCrudOp`, `addToWriterVector`, `addDerivedOps`,
    `deriveOneOp` / `deriveOpsLoop` (the loop body and loop of
    `SyncTail::_deriveOpsAndFillWriterVectors`), and `fillWriterVectors`
    (`SyncTail::fillWriterVectors`);
  * `stableSortByNamespace`;
  * `syncApply` (the dispatch / exception-disposition logic);
  * `multiSyncApply` (the worker loop with its error suppression policy).

External collaborators that the core only calls through an interface
(the collection catalog, the string and murmur hashes, the session update
tracker, `readTransactionOperationsFromOplogChain`,
`ApplyOps::extractOperations`, `applyOperation_inlock`,
`applyCommand_inlock`, the insert grouper) are modelled as parameters of an
environment record, so every theorem below quantifies over their behavior.

C++ pointers into the input batch and into the derived-ops pools are
modelled by the `OpRef` type: `OpRef.input i` is a pointer to the i-th op
of the input batch, `OpRef.derived p j` a pointer to the j-th op of the
p-th derived-ops pool.  Writer vectors are lists of `OpRef`.
-/

namespace SyncTail

/-- Oplog entry type (`OpTypeEnum`): n / i / u / d / c. -/
inductive OpType
  | noop
  | insert
  | update
  | delete
  | command
deriving DecidableEq, Repr

/-- The only command type `_deriveOpsAndFillWriterVectors` distinguishes
explicitly is `kAbortTransaction`; every other command type is `other`. -/
inductive CommandType
  | abortTransaction
  | other
deriving DecidableEq, Repr

/-- `OplogApplication::Mode` values distinguished by this translation unit. -/
inductive Mode
  | initialSync
  | secondary
  | recovering
deriving DecidableEq, Repr

/-- `repl::OpTime`: a (timestamp, term) pair, compared lexicographically with
the timestamp first. -/
structure OpTime where
  ts : Nat
  term : Nat
deriving DecidableEq, Repr

/-- `operator<=` on OpTime: timestamp first, then term. -/
def opTimeLE (a b : OpTime) : Prop :=
  a.ts < b.ts ∨ (a.ts = b.ts ∧ a.term ≤ b.term)

instance (a b : OpTime) : Decidable (opTimeLE a b) := by
  unfold opTimeLE; infer_instance

/-- The fields of `repl::OplogEntry` read or written by sync_tail.cpp.
`idElem` abstracts the BSON `_id` element returned by `getIdElement`;
`isForCappedCollection` is the one mutable field (set by `processCrudOp`). -/
structure OplogEntry where
  opType : OpType
  nss : String
  opTime : OpTime
  idElem : Nat
  sessionId : Option Nat
  txnNumber : Option Nat
  prevWriteOpTimeInTxn : Option OpTime
  isPartialTransaction : Bool
  shouldPrepare : Bool
  isPreparedCommit : Bool
  isTerminalApplyOps : Bool
  commandType : CommandType
  isForCappedCollection : Bool
deriving DecidableEq, Repr

/-- `OplogEntry::isCrudOpType`. -/
def OplogEntry.isCrudOpType (op : OplogEntry) : Bool :=
  match op.opType with
  | OpType.insert => true
  | OpType.update => true
  | OpType.delete => true
  | _ => false

/-- `CachedCollectionProperties::CollectionProperties`; the collator pointer
is abstracted to an `Option Nat`. -/
structure CollectionProperties where
  isCapped : Bool := false
  collator : Option Nat := none
deriving DecidableEq, Repr

/-- A non-owning op handle stored in a writer vector: either a pointer into
the input batch (by position) or into a derived-ops pool (pool, position). -/
inductive OpRef
  | input (i : Nat)
  | derived (p : Nat) (j : Nat)
deriving DecidableEq, Repr

/-- Environment of external collaborators for the partitioning pass.
`σ` is the (abstract) state type of the `SessionUpdateTracker`.

* `catalog` models `CachedCollectionProperties::getCollectionPropertiesImpl`
  (a catalog read returning default properties when the database or
  collection is absent); it is fixed for the pass.
* `hashNs` models `StringMapHasher().hashed_key(ns).hash()`.
* `murmur3 idHash seed` models `MurmurHash3_x86_32(&idHash, _, seed, &out)`.
* `elementHash collator id` models
  `BSONElementComparator(kIgnore, collator).hash(id)`.
* `readTxnOps op partialList` models
  `readTransactionOperationsFromOplogChain(opCtx, op, partialList)`.
* `extractOperations` models `ApplyOps::extractOperations`.
* `updateSession` / `flushAll` / `initTracker` model the
  `SessionUpdateTracker`. -/
structure FillEnv (σ : Type) where
  supportsDocLocking : Bool
  catalog : String → CollectionProperties
  hashNs : String → Nat
  murmur3 : Nat → Nat → Nat
  elementHash : Option Nat → Nat → Nat
  readTxnOps : OplogEntry → List OplogEntry → List OplogEntry
  extractOperations : OplogEntry → List OplogEntry
  updateSession : σ → OplogEntry → σ × Option (List OplogEntry)
  flushAll : σ → List OplogEntry
  initTracker : σ
  mode : Mode
  beginApplyingOpTime : OpTime

/-- Lookup in the per-pass collection-properties cache (a `StringMap`). -/
def cacheFind : List (String × CollectionProperties) → String →
    Option CollectionProperties
  | [], _ => none
  | (k, v) :: rest, ns => if k = ns then some v else cacheFind rest ns

/-- `CachedCollectionProperties::getCollectionProperties`: consult the cache,
on a miss read the catalog and memoize. -/
def getCollectionProperties {σ : Type} (env : FillEnv σ)
    (cache : List (String × CollectionProperties)) (ns : String) :
    CollectionProperties × List (String × CollectionProperties) :=
  match cacheFind cache ns with
  | some props => (props, cache)
  | none =>
    let props := env.catalog ns
    (props, (ns, props) :: cache)

/-- `processCrudOp`: for doc-locking engines and non-capped collections, mix
the collator-aware `_id` hash into the routing hash with murmur3; mark
inserts into capped collections with `isForCappedCollection`.  The
`% 4294967296` models the `uint32_t` width of the hash. -/
def processCrudOp {σ : Type} (env : FillEnv σ) (op : OplogEntry) (hash : Nat)
    (cache : List (String × CollectionProperties)) :
    OplogEntry × Nat × List (String × CollectionProperties) :=
  let pc := getCollectionProperties env cache op.nss
  let props := pc.1
  let cache := pc.2
  let hash :=
    if env.supportsDocLocking && !props.isCapped then
      env.murmur3 (env.elementHash props.collator op.idElem) hash % 4294967296
    else hash
  let op :=
    if op.opType = OpType.insert ∧ props.isCapped = true then
      { op with isForCappedCollection := true }
    else op
  (op, hash, cache)

/-- Append a ref at the end of the n-th inner list (`writer.push_back(op)`). -/
def appendAt (n : Nat) (r : OpRef) : List (List OpRef) → List (List OpRef)
  | [] => []
  | v :: rest =>
    match n with
    | 0 => (v ++ [r]) :: rest
    | Nat.succ m => v :: appendAt m r rest

/-- `addToWriterVector`: append the op handle to writer `hash % numWriters`. -/
def addToWriterVector (ref : OpRef) (hash : Nat) (wv : List (List OpRef)) :
    List (List OpRef) :=
  appendAt (hash % wv.length) ref wv

/-- `addDerivedOps`: route every op of a freshly emplaced derived-ops pool
(pool index `p`, ops numbered from `j`).  Returns the pool after the
in-place `processCrudOp` mutations, the new writer vectors and cache. -/
def addDerivedOps {σ : Type} (env : FillEnv σ) (p : Nat) :
    Nat → List OplogEntry → List (List OpRef) →
    List (String × CollectionProperties) →
    List OplogEntry × List (List OpRef) × List (String × CollectionProperties)
  | _, [], wv, cache => ([], wv, cache)
  | j, op :: rest, wv, cache =>
    let hash := env.hashNs op.nss % 4294967296
    let phc :=
      if op.isCrudOpType then processCrudOp env op hash cache
      else (op, hash, cache)
    let op' := phc.1
    let wv := addToWriterVector (OpRef.derived p j) phc.2.1 wv
    let rec' := addDerivedOps env p (j + 1) rest wv phc.2.2
    (op' :: rec'.1, rec'.2.1, rec'.2.2)

/-- Pointwise update of the `partialTxnOps` map (`LogicalSessionIdMap`). -/
def updFn (f : Nat → List OplogEntry) (k : Nat) (v : List OplogEntry) :
    Nat → List OplogEntry :=
  fun x => if x = k then v else f x

/-- The mutable state threaded through `_deriveOpsAndFillWriterVectors`:
writer vectors, derived-ops pools, the per-pass `partialTxnOps` map and
collection-properties cache, and the session-update-tracker state. -/
structure LoopState (σ : Type) where
  wv : List (List OpRef)
  derived : List (List OplogEntry)
  partialTxn : Nat → List OplogEntry
  cache : List (String × CollectionProperties)
  tr : σ

/-- The recurring `derivedOps->emplace_back(pool); addDerivedOps(...)`
pattern: append a new derived-ops pool and route its ops. -/
def emplacePool {σ : Type} (env : FillEnv σ) (pool : List OplogEntry)
    (st : LoopState σ) : LoopState σ :=
  let adr := addDerivedOps env st.derived.length 0 pool st.wv st.cache
  { st with wv := adr.2.1, cache := adr.2.2, derived := st.derived ++ [adr.1] }

/-- The `sessionUpdateTracker->updateSession(op)` step: when a tracker was
supplied, feed it the op and route any synthetic oplog writes it returns
as a fresh derived pool. -/
def trackerStep {σ : Type} (env : FillEnv σ) (useTracker : Bool)
    (op : OplogEntry) (st : LoopState σ) : LoopState σ :=
  if useTracker then
    let us := env.updateSession st.tr op
    match us.2 with
    | some nw => { emplacePool env nw st with tr := us.1 }
    | none => { st with tr := us.1 }
  else st

/-- The tail of the loop body of `_deriveOpsAndFillWriterVectors` (lines
after the CRUD hash/marking step): `op` is the possibly
`isForCappedCollection`-marked op and `hash` its routing hash.  Terminal
applyOps entries and prepared commits during initial sync materialize a
derived pool (clearing the session's partial-transaction buffer); every
other op is appended to writer `hash % numWriters` with handle `tag i`.

The source's `invariant(!op.getPrevWriteOpTimeInTransaction())` on the
non-transaction applyOps path aborts the process and is not modelled. -/
def routeOrDerive {σ : Type} (env : FillEnv σ) (tag : Nat → OpRef) (i : Nat)
    (op : OplogEntry) (hash : Nat) (st : LoopState σ) :
    OplogEntry × LoopState σ :=
  if op.isTerminalApplyOps then
    if op.sessionId.isSome && op.txnNumber.isSome then
      -- commit of an unprepared transaction: materialize from the oplog
      -- chain plus the buffered partial ops, then clear the buffer
      let sid := op.sessionId.getD 0
      let pool := env.readTxnOps op (st.partialTxn sid)
      let st := { st with partialTxn := updFn st.partialTxn sid [] }
      (op, emplacePool env pool st)
    else
      -- applyOps not generated by a transaction: extract its operations
      (op, emplacePool env (env.extractOperations op) st)
  else if op.isPreparedCommit && env.mode = Mode.initialSync then
    -- prepared commit during initial sync: materialize as for a commit
    let sid := op.sessionId.getD 0
    let pool := env.readTxnOps op (st.partialTxn sid)
    let st := { st with partialTxn := updFn st.partialTxn sid [] }
    (op, emplacePool env pool st)
  else
    (op, { st with wv := addToWriterVector (tag i) hash st.wv })

/-- The loop body of `_deriveOpsAndFillWriterVectors` after the floor filter
and tracker step: buffer partial-transaction entries (and prepares during
initial sync), clear the buffer on `abortTransaction`, run the CRUD
hash/marking step, then `routeOrDerive`.

The source `invariant` that all buffered entries of a partial transaction
share its txn number aborts the process on failure and is not modelled. -/
def deriveOneOpCore {σ : Type} (env : FillEnv σ) (tag : Nat → OpRef) (i : Nat)
    (op : OplogEntry) (st : LoopState σ) : OplogEntry × LoopState σ :=
  -- buffer partial-transaction entries (and prepares during initial sync)
  if op.isPartialTransaction || (op.shouldPrepare && env.mode = Mode.initialSync) then
    let sid := op.sessionId.getD 0
    (op, { st with partialTxn := updFn st.partialTxn sid (st.partialTxn sid ++ [op]) })
  else
    -- abortTransaction: discard the session's buffered partial ops
    let st :=
      if op.commandType = CommandType.abortTransaction then
        { st with partialTxn := updFn st.partialTxn (op.sessionId.getD 0) [] }
      else st
    -- CRUD: adjust hash / capped marking
    let phc :=
      if op.isCrudOpType then
        processCrudOp env op (env.hashNs op.nss % 4294967296) st.cache
      else (op, env.hashNs op.nss % 4294967296, st.cache)
    routeOrDerive env tag i phc.1 phc.2.1 { st with cache := phc.2.2 }

/-- One iteration of the loop body of `_deriveOpsAndFillWriterVectors` for
the op at batch position `i`.  `useTracker` is whether a
`sessionUpdateTracker` was passed (it is null on the recursive pass);
`tag i` is the pointer stored for the op when it is routed.  Returns the
op's (possibly `isForCappedCollection`-mutated) value and the new state. -/
def deriveOneOp {σ : Type} (env : FillEnv σ) (useTracker : Bool)
    (tag : Nat → OpRef) (i : Nat) (op : OplogEntry) (st : LoopState σ) :
    OplogEntry × LoopState σ :=
  -- floor filter: skip ops at or below beginApplyingOpTime
  if opTimeLE op.opTime env.beginApplyingOpTime then (op, st)
  else deriveOneOpCore env tag i op (trackerStep env useTracker op st)

/-- The loop of `_deriveOpsAndFillWriterVectors` over (position, op) pairs.
Returns the pairs with their post-pass op values (the source mutates the
ops in place) together with the final state. -/
def deriveOpsLoop {σ : Type} (env : FillEnv σ) (useTracker : Bool)
    (tag : Nat → OpRef) :
    List (Nat × OplogEntry) → LoopState σ →
    List (Nat × OplogEntry) × LoopState σ
  | [], st => ([], st)
  | (i, op) :: rest, st =>
    let os := deriveOneOp env useTracker tag i op st
    let rs := deriveOpsLoop env useTracker tag rest os.2
    ((i, os.1) :: rs.1, rs.2)

/-- Result of `fillWriterVectors`: the input ops after in-place mutation, the
writer vectors, the derived-ops pools, the first pass's `partialTxnOps`
map (a local in the source, exposed here for analysis), and the final
tracker state. -/
structure FillResult (σ : Type) where
  ops : List OplogEntry
  wv : List (List OpRef)
  derived : List (List OplogEntry)
  partialTxn : Nat → List OplogEntry
  tr : σ

/-- The tail of `SyncTail::fillWriterVectors` after the tracked pass: flush
the session update tracker and, if it returned residual synthetic ops,
route them in a second, untracked pass whose ops live in a fresh derived
pool (with a fresh local cache and partial-transaction map, as in the
source's recursive `_deriveOpsAndFillWriterVectors` call).  `pairs1out`
are the (position, op) pairs of the tracked pass's batch after mutation. -/
def secondPass {σ : Type} (env : FillEnv σ) (st1 : LoopState σ)
    (pairs1out : List (Nat × OplogEntry)) : FillResult σ :=
  let nw := env.flushAll st1.tr
  if nw.isEmpty then
    ⟨pairs1out.map Prod.snd, st1.wv, st1.derived, st1.partialTxn, st1.tr⟩
  else
    let p := st1.derived.length
    let st1' : LoopState σ :=
      ⟨st1.wv, st1.derived ++ [nw], fun _ => [], [], st1.tr⟩
    let r2 := deriveOpsLoop env false (OpRef.derived p) (nw.enum) st1'
    ⟨pairs1out.map Prod.snd, r2.2.wv, (r2.2.derived).set p (r2.1.map Prod.snd),
      st1.partialTxn, st1.tr⟩

/-- `SyncTail::fillWriterVectors`, generalized to take the input batch as
(position, op) pairs: run the tracked pass, then `secondPass`. -/
def fillWriterVectorsFromPairs {σ : Type} (env : FillEnv σ)
    (pairs : List (Nat × OplogEntry)) (numWriters : Nat) : FillResult σ :=
  let r1 := deriveOpsLoop env true OpRef.input pairs
    ⟨List.replicate numWriters [], [], fun _ => [], [], env.initTracker⟩
  secondPass env r1.2 r1.1

/-- `SyncTail::fillWriterVectors` on an input batch. -/
def fillWriterVectors {σ : Type} (env : FillEnv σ) (ops : List OplogEntry)
    (numWriters : Nat) : FillResult σ :=
  fillWriterVectorsFromPairs env ops.enum numWriters

/-! ### stableSortByNamespace -/

/-- Insert an op into a namespace-sorted list, before the first element not
namespace-below it.  This is the placement `std::stable_sort` with the
comparator `l->getNss() < r->getNss()` gives to an element relative to the
elements that followed it. -/
def insertByNs (a : OplogEntry) : List OplogEntry → List OplogEntry
  | [] => [a]
  | b :: l => if a.nss ≤ b.nss then a :: b :: l else b :: insertByNs a l

/-- `stableSortByNamespace`: stable sort of a worker vector by namespace.
A stable sort's output is uniquely determined by the comparator and the
input order, so insertion sort is an exact model of `std::stable_sort`. -/
def stableSortByNamespace : List OplogEntry → List OplogEntry
  | [] => []
  | a :: l => insertByNs a (stableSortByNamespace l)

/-! ### syncApply -/

/-- The error codes sync_tail.cpp inspects by name. -/
inductive ErrorCode
  | namespaceNotFound
  | writeConflict
  | updateOperationFailed
  | other
deriving DecidableEq, Repr

/-- Outcome of one execution of an apply step: an OK status, a non-OK
returned status, or a thrown `DBException` (whose `annotated` flag records
whether `addContext` was called on it). -/
inductive OpOutcome
  | ok
  | err (code : ErrorCode)
  | exn (code : ErrorCode) (addedContext : Bool)
deriving DecidableEq, Repr

/-- One attempt of the CRUD branch of `syncApply`: the try/catch around
collection acquisition and `applyOperation_inlock`.

`body` is the raw outcome of the attempt: a thrown exception from
`AutoGetCollection` / the missing-database `uassert` / the apply itself, or
the status returned by `applyOperation_inlock`.  A returned `WriteConflict`
status is converted to a thrown `WriteConflictException`; a thrown
`NamespaceNotFound` is swallowed for deletes and in recovering mode and
otherwise annotated and re-thrown. -/
def crudAttempt (mode : Mode) (opType : OpType) (body : OpOutcome) : OpOutcome :=
  match body with
  | OpOutcome.ok => OpOutcome.ok
  | OpOutcome.err c =>
    if c = ErrorCode.writeConflict then OpOutcome.exn ErrorCode.writeConflict false
    else OpOutcome.err c
  | OpOutcome.exn c a =>
    if c = ErrorCode.namespaceNotFound then
      if opType = OpType.delete ∨ mode = Mode.recovering then OpOutcome.ok
      else OpOutcome.exn ErrorCode.namespaceNotFound true
    else OpOutcome.exn c a

/-- `writeConflictRetry`: rerun the thunk as long as it throws
`WriteConflictException`.  The list holds the outcome of each successive
attempt; `none` models the (externally impossible) case of every attempt
conflicting. -/
def writeConflictRetryList : List OpOutcome → Option OpOutcome
  | [] => none
  | o :: rest =>
    match o with
    | OpOutcome.exn c _ =>
      if c = ErrorCode.writeConflict then writeConflictRetryList rest else some o
    | _ => some o

/-- `syncApply`: dispatch one op.  Noops count and return OK; CRUD ops run
`crudAttempt` under the write-conflict retry loop; commands run
`applyCommand_inlock` (whose per-attempt outcomes are `bodies`) under the
retry loop.  Slow-op logging and the counter have no effect on the
returned status and are not modelled. -/
def syncApply (mode : Mode) (op : OplogEntry) (bodies : List OpOutcome) :
    Option OpOutcome :=
  match op.opType with
  | OpType.noop => some OpOutcome.ok
  | OpType.command => writeConflictRetryList bodies
  | _ => writeConflictRetryList (bodies.map (crudAttempt mode op.opType))

/-! ### multiSyncApply -/

/-- A worker's returned status. -/
inductive WorkerStatus
  | ok
  | err (code : ErrorCode)
deriving DecidableEq, Repr

/-- `e.toStatus()` / a returned non-OK status, as the worker reports it. -/
def statusOfOutcome : OpOutcome → WorkerStatus
  | OpOutcome.ok => WorkerStatus.ok
  | OpOutcome.err c => WorkerStatus.err c
  | OpOutcome.exn c _ => WorkerStatus.err c

/-- The loop of `multiSyncApply` over the (already sorted) worker vector.

`group l` models `InsertGroup::groupAndApplyInserts` on the cursor at the
head of `l`: `some k` means a group was applied whose last entry is at
offset `k`, so the cursor resumes after it; `none` means no group was
formed and the op is applied individually.  `applyRes op` is the outcome
of `syncApply` for `op` (a returned status or a thrown exception).

A non-OK individual outcome is skipped exactly when it is an
`UpdateOperationFailed` status in initial-sync mode, or a thrown
`NamespaceNotFound` on a CRUD op with
`allowNamespaceNotFoundErrorsOnCrudOps` set; any other non-OK outcome makes
the worker return its status. -/
def multiSyncApplyLoop (mode : Mode) (allowNNF : Bool)
    (group : List OplogEntry → Option Nat)
    (applyRes : OplogEntry → OpOutcome) :
    List OplogEntry → WorkerStatus
  | [] => WorkerStatus.ok
  | op :: rest =>
    match group (op :: rest) with
    | some k => multiSyncApplyLoop mode allowNNF group applyRes (rest.drop k)
    | none =>
      match applyRes op with
      | OpOutcome.ok => multiSyncApplyLoop mode allowNNF group applyRes rest
      | OpOutcome.err c =>
        if c = ErrorCode.updateOperationFailed ∧ mode = Mode.initialSync then
          multiSyncApplyLoop mode allowNNF group applyRes rest
        else WorkerStatus.err c
      | OpOutcome.exn c _ =>
        if c = ErrorCode.namespaceNotFound ∧ op.isCrudOpType = true ∧ allowNNF = true then
          multiSyncApplyLoop mode allowNNF group applyRes rest
        else WorkerStatus.err c
  termination_by l => l.length
  decreasing_by
    all_goals simp only [List.length_cons, List.length_drop]
    all_goals omega

/-- `multiSyncApply`: stable-sort the worker vector by namespace, then walk
it applying groups or single ops.  The operation-context configuration
(unreplicated writes, disabled validation, lock and recovery-unit flags)
and the multikey-path hand-off have no effect on the op-level control flow
modelled here. -/
def multiSyncApply (mode : Mode) (allowNNF : Bool)
    (group : List OplogEntry → Option Nat)
    (applyRes : OplogEntry → OpOutcome) (ops : List OplogEntry) : WorkerStatus :=
  multiSyncApplyLoop mode allowNNF group applyRes (stableSortByNamespace ops)

/-! ### Analysis helpers (derived characterizations, not source functions) -/

/-- Whether a non-grouped apply outcome makes the `multiSyncApply` loop stop:
false exactly for OK outcomes, `UpdateOperationFailed` statuses in
initial-sync mode, and thrown `NamespaceNotFound` on CRUD ops when
`allowNamespaceNotFoundErrorsOnCrudOps` is set. -/
def haltsOn (mode : Mode) (allowNNF : Bool) (op : OplogEntry) (r : OpOutcome) :
    Bool :=
  match r with
  | OpOutcome.ok => false
  | OpOutcome.err c =>
    if c = ErrorCode.updateOperationFailed ∧ mode = Mode.initialSync then false
    else true
  | OpOutcome.exn c _ =>
    if c = ErrorCode.namespaceNotFound ∧ op.isCrudOpType = true ∧ allowNNF = true then
      false
    else true

/-- The routing hash an op receives in `_deriveOpsAndFillWriterVectors` (the
namespace hash, with the collator-aware `_id` hash mixed in for CRUD ops on
non-capped collections under a doc-locking engine). -/
def routeHash {σ : Type} (env : FillEnv σ) (op : OplogEntry) : Nat :=
  let h := env.hashNs op.nss % 4294967296
  if op.isCrudOpType = true ∧ env.supportsDocLocking = true ∧
      (env.catalog op.nss).isCapped = false then
    env.murmur3 (env.elementHash (env.catalog op.nss).collator op.idElem) h % 4294967296
  else h

/-- Whether (and with which hash) an op of the input batch is itself appended
to a writer vector by `_deriveOpsAndFillWriterVectors`: `none` for ops at
or below the begin-applying floor, buffered partial-transaction ops
(including prepares during initial sync), terminal applyOps entries and
prepared commits during initial sync (all of which route only derived
ops). -/
def routesTo {σ : Type} (env : FillEnv σ) (op : OplogEntry) : Option Nat :=
  if opTimeLE op.opTime env.beginApplyingOpTime then none
  else if op.isPartialTransaction || (op.shouldPrepare && env.mode = Mode.initialSync) then
    none
  else if op.isTerminalApplyOps then none
  else if op.isPreparedCommit && env.mode = Mode.initialSync then none
  else some (routeHash env op)

/-- The value an input-batch op has after the partitioning pass: unchanged
unless it was neither skipped nor buffered and is an insert into a capped
collection, in which case `isForCappedCollection` is set. -/
def stepOutOp {σ : Type} (env : FillEnv σ) (op : OplogEntry) : OplogEntry :=
  if opTimeLE op.opTime env.beginApplyingOpTime then op
  else if op.isPartialTransaction || (op.shouldPrepare && env.mode = Mode.initialSync) then
    op
  else if op.opType = OpType.insert ∧ (env.catalog op.nss).isCapped = true then
    { op with isForCappedCollection := true }
  else op

/-- Every cached collection-properties entry agrees with the catalog (the
cache is built from catalog reads and the catalog is fixed for the pass). -/
def CacheGood {σ : Type} (env : FillEnv σ)
    (cache : List (String × CollectionProperties)) : Prop :=
  ∀ pr ∈ cache, pr.2 = env.catalog pr.1

/-- `b` equals `a` except possibly for having `isForCappedCollection` set. -/
def sameExceptCapped (a b : OplogEntry) : Prop :=
  b = a ∨ b = { a with isForCappedCollection := true }

/-- Input-op handles occurring in a writer vector appear in batch order:
positions respect the batch positions they point at. -/
def InputMono (v : List OpRef) : Prop :=
  ∀ p, p < v.length → ∀ q, q < v.length → p ≤ q →
    ∀ i j, v[p]? = some (OpRef.input i) → v[q]? = some (OpRef.input j) →
      i ≤ j

/-- All input-op handles in a vector point below `n`. -/
def InputBound (n : Nat) (v : List OpRef) : Prop :=
  ∀ r ∈ v, ∀ i, r = OpRef.input i → i < n

/-- Every occurrence of `x` in `v` is at a strictly smaller position than
every occurrence of `y`. -/
def OccursBefore (x y : OpRef) (v : List OpRef) : Prop :=
  ∀ p, p < v.length → ∀ q, q < v.length →
    v[p]? = some x → v[q]? = some y → p < q

instance (x y : OpRef) (v : List OpRef) : Decidable (OccursBefore x y v) := by
  unfold OccursBefore; infer_instance

/-- The (position, op) pairs carry positions that start at or after `b` and
strictly increase (as the pairs of `List.enum` do). -/
def PairsInc : Nat → List (Nat × OplogEntry) → Prop
  | _, [] => True
  | b, (i, _) :: rest => b ≤ i ∧ PairsInc (i + 1) rest

/-- First position bound available after processing the pairs. -/
def endBound : Nat → List (Nat × OplogEntry) → Nat
  | b, [] => b
  | _, (i, _) :: rest => endBound (i + 1) rest

/-! ### Concrete inputs for witnesses and counterexamples -/

/-- A baseline CRUD/op template for concrete scenarios. -/
def baseOp : OplogEntry :=
  { opType := OpType.insert, nss := "db.c", opTime := ⟨101, 1⟩, idElem := 1,
    sessionId := none, txnNumber := none, prevWriteOpTimeInTxn := none,
    isPartialTransaction := false, shouldPrepare := false,
    isPreparedCommit := false, isTerminalApplyOps := false,
    commandType := CommandType.other, isForCappedCollection := false }

/-- An insert into the capped collection of `cEnv`. -/
def cappedInsertOp : OplogEntry := { baseOp with nss := "db.capped" }

/-- Insert at or below the begin-applying floor of `cEnv`, `_id` 7. -/
def c1OpA : OplogEntry := { baseOp with opTime := ⟨99, 1⟩, idElem := 7 }

/-- Insert above the floor with the same namespace and `_id` as `c1OpA`. -/
def c1OpB : OplogEntry := { baseOp with opTime := ⟨102, 1⟩, idElem := 7 }

/-- Two same-document inserts above the floor. -/
def c1OpC : OplogEntry := { baseOp with opTime := ⟨101, 1⟩, idElem := 7 }

/-- See `c1OpC`. -/
def c1OpD : OplogEntry := { baseOp with opTime := ⟨102, 1⟩, idElem := 7 }

/-- A partial-transaction entry of session 5, txn 7. -/
def partialTxnOp : OplogEntry :=
  { baseOp with
    opType := OpType.command, isPartialTransaction := true,
    sessionId := some 5, txnNumber := some 7 }

/-- The terminal applyOps committing session 5's transaction 7. -/
def commitTxnOp : OplogEntry :=
  { baseOp with
    opType := OpType.command, opTime := ⟨103, 1⟩,
    isTerminalApplyOps := true, sessionId := some 5, txnNumber := some 7 }

/-- An `abortTransaction` command entry for session 5. -/
def abortTxnOp : OplogEntry :=
  { baseOp with
    opType := OpType.command, opTime := ⟨103, 1⟩,
    commandType := CommandType.abortTransaction, sessionId := some 5 }

/-- A concrete environment over the trivial (unit) tracker state: a
doc-locking engine, a catalog where only `db.capped` is capped, simple
injective stand-ins for the hash functions, and a silent session update
tracker. -/
def cEnv : FillEnv Unit :=
  { supportsDocLocking := true
    catalog := fun ns => if ns = "db.capped" then ⟨true, none⟩ else ⟨false, none⟩
    hashNs := fun ns => ns.length
    murmur3 := fun x s => x + 31 * s
    elementHash := fun _ n => n
    readTxnOps := fun op l => l ++ [{ op with isTerminalApplyOps := false }]
    extractOperations := fun _ => []
    updateSession := fun s _ => (s, none)
    flushAll := fun _ => []
    initTracker := ()
    mode := Mode.secondary
    beginApplyingOpTime := ⟨100, 1⟩ }

/-! ### List and writer-vector helper lemmas -/

theorem getD_replicate_nil (n w : Nat) :
    (List.replicate n ([] : List OpRef)).getD w [] = [] := by
  rcases Nat.lt_or_ge w n with h | h
  · simp [List.getD_eq_getElem?_getD, List.getElem?_replicate, h]
  · simp [List.getD_eq_getElem?_getD, List.getElem?_eq_none, h]

theorem appendAt_length (n : Nat) (r : OpRef) (wv : List (List OpRef)) :
    (appendAt n r wv).length = wv.length := by
  induction wv generalizing n with
  | nil => cases n <;> simp [appendAt]
  | cons v rest ih =>
    cases n with
    | zero => simp [appendAt]
    | succ m => simp [appendAt, ih]

theorem appendAt_getD (n : Nat) (r : OpRef) (wv : List (List OpRef)) (w : Nat) :
    (appendAt n r wv).getD w [] =
      if w = n ∧ n < wv.length then wv.getD w [] ++ [r] else wv.getD w [] := by
  induction wv generalizing n w with
  | nil => simp [appendAt]
  | cons v rest ih =>
    cases n with
    | zero =>
      cases w with
      | zero => simp [appendAt]
      | succ w' => simp [appendAt]
    | succ m =>
      cases w with
      | zero => simp [appendAt]
      | succ w' =>
        simp only [appendAt, List.getD_cons_succ, ih, List.length_cons]
        by_cases h1 : w' = m
        · subst h1
          by_cases h2 : w' < rest.length <;> simp [h2, Nat.succ_lt_succ_iff]
        · have : ¬ (w' + 1 = m + 1) := by omega
          simp [h1, this]

/-! ### Cache and processCrudOp lemmas -/

theorem cacheFind_good {σ : Type} (env : FillEnv σ)
    (cache : List (String × CollectionProperties)) (hc : CacheGood env cache)
    (ns : String) (props : CollectionProperties)
    (h : cacheFind cache ns = some props) : props = env.catalog ns := by
  induction cache with
  | nil => simp [cacheFind] at h
  | cons pr rest ih =>
    simp only [cacheFind] at h
    by_cases he : pr.1 = ns
    · rw [if_pos he] at h
      have := hc pr (List.mem_cons_self pr rest)
      cases h
      · exact he ▸ this
    · rw [if_neg he] at h
      exact ih (fun q hq => hc q (List.mem_cons_of_mem pr hq)) h

theorem getCollectionProperties_fst {σ : Type} (env : FillEnv σ)
    (cache : List (String × CollectionProperties)) (hc : CacheGood env cache)
    (ns : String) :
    (getCollectionProperties env cache ns).1 = env.catalog ns := by
  unfold getCollectionProperties
  cases hfind : cacheFind cache ns with
  | none => rfl
  | some props => exact cacheFind_good env cache hc ns props hfind

theorem getCollectionProperties_good {σ : Type} (env : FillEnv σ)
    (cache : List (String × CollectionProperties)) (hc : CacheGood env cache)
    (ns : String) :
    CacheGood env (getCollectionProperties env cache ns).2 := by
  unfold getCollectionProperties
  cases hfind : cacheFind cache ns with
  | none =>
    intro pr hpr
    rcases List.mem_cons.mp hpr with rfl | hpr
    · rfl
    · exact hc pr hpr
  | some props => exact hc

theorem processCrudOp_op {σ : Type} (env : FillEnv σ) (op : OplogEntry)
    (hash : Nat) (cache : List (String × CollectionProperties))
    (hc : CacheGood env cache) :
    (processCrudOp env op hash cache).1 =
      (if op.opType = OpType.insert ∧ (env.catalog op.nss).isCapped = true then
        { op with isForCappedCollection := true }
       else op) := by
  unfold processCrudOp
  simp only [getCollectionProperties_fst env cache hc op.nss]

theorem processCrudOp_hash {σ : Type} (env : FillEnv σ) (op : OplogEntry)
    (hash : Nat) (cache : List (String × CollectionProperties))
    (hc : CacheGood env cache) :
    (processCrudOp env op hash cache).2.1 =
      (if env.supportsDocLocking = true ∧ (env.catalog op.nss).isCapped = false then
        env.murmur3 (env.elementHash (env.catalog op.nss).collator op.idElem) hash
          % 4294967296
       else hash) := by
  unfold processCrudOp
  simp only [getCollectionProperties_fst env cache hc op.nss]
  by_cases h1 : env.supportsDocLocking = true
  · by_cases h2 : (env.catalog op.nss).isCapped = false
    · simp [h1, h2]
    · have h2' : (env.catalog op.nss).isCapped = true := by
        revert h2; cases (env.catalog op.nss).isCapped <;> simp
      simp [h1, h2, h2']
  · have h1' : env.supportsDocLocking = false := by
      revert h1; cases env.supportsDocLocking <;> simp
    simp [h1, h1']

theorem processCrudOp_cache {σ : Type} (env : FillEnv σ) (op : OplogEntry)
    (hash : Nat) (cache : List (String × CollectionProperties))
    (hc : CacheGood env cache) :
    CacheGood env (processCrudOp env op hash cache).2.2 := by
  unfold processCrudOp
  exact getCollectionProperties_good env cache hc op.nss

/-- For a CRUD op, `processCrudOp` starting from the base namespace hash
produces exactly `routeHash`. -/
theorem processCrudOp_routeHash {σ : Type} (env : FillEnv σ) (op : OplogEntry)
    (cache : List (String × CollectionProperties)) (hc : CacheGood env cache)
    (hcrud : op.isCrudOpType = true) :
    (processCrudOp env op (env.hashNs op.nss % 4294967296) cache).2.1 =
      routeHash env op := by
  rw [processCrudOp_hash env op _ cache hc]
  unfold routeHash
  by_cases h1 : env.supportsDocLocking = true
  · by_cases h2 : (env.catalog op.nss).isCapped = false
    · simp [h1, h2, hcrud]
    · simp [h1, h2, hcrud]
  · simp [h1, hcrud]

theorem addToWriterVector_length (ref : OpRef) (hash : Nat)
    (wv : List (List OpRef)) :
    (addToWriterVector ref hash wv).length = wv.length :=
  appendAt_length _ ref wv

theorem addToWriterVector_getD (ref : OpRef) (hash : Nat)
    (wv : List (List OpRef)) (w : Nat) :
    (addToWriterVector ref hash wv).getD w [] =
      if w = hash % wv.length ∧ hash % wv.length < wv.length then
        wv.getD w [] ++ [ref]
      else wv.getD w [] :=
  appendAt_getD _ ref wv w

theorem addToWriterVector_mem (ref : OpRef) (hash : Nat)
    (wv : List (List OpRef)) (h : 0 < wv.length) :
    ref ∈ (addToWriterVector ref hash wv).getD (hash % wv.length) [] := by
  rw [addToWriterVector_getD]
  rw [if_pos ⟨rfl, Nat.mod_lt hash h⟩]
  exact List.mem_append_right _ (List.mem_singleton.mpr rfl)

theorem processCrudOp_sameExceptCapped {σ : Type} (env : FillEnv σ)
    (op : OplogEntry) (hash : Nat)
    (cache : List (String × CollectionProperties)) (hc : CacheGood env cache) :
    sameExceptCapped op (processCrudOp env op hash cache).1 := by
  rw [processCrudOp_op env op hash cache hc]
  unfold sameExceptCapped
  split
  · exact Or.inr rfl
  · exact Or.inl rfl

/-- Full specification of `addDerivedOps`: it preserves cache agreement with
the catalog and the number of writer vectors; it only appends
pool-`p` handles to the vectors; the returned pool differs from the input
pool only in `isForCappedCollection` marks; and (when there is at least
one writer) every pool op's handle lands in some vector. -/
theorem addDerivedOps_spec {σ : Type} (env : FillEnv σ) (p : Nat) :
    ∀ (pool : List OplogEntry) (j : Nat) (wv : List (List OpRef))
      (cache : List (String × CollectionProperties)), CacheGood env cache →
      CacheGood env (addDerivedOps env p j pool wv cache).2.2 ∧
      (addDerivedOps env p j pool wv cache).2.1.length = wv.length ∧
      (∀ w, ∃ ext, (addDerivedOps env p j pool wv cache).2.1.getD w [] =
          wv.getD w [] ++ ext ∧ ∀ x ∈ ext, ∃ k, x = OpRef.derived p k) ∧
      List.Forall₂ sameExceptCapped pool (addDerivedOps env p j pool wv cache).1 ∧
      (∀ k, k < pool.length → 0 < wv.length →
        ∃ w, OpRef.derived p (j + k) ∈ (addDerivedOps env p j pool wv cache).2.1.getD w []) := by
  intro pool
  induction pool with
  | nil =>
    intro j wv cache hc
    refine ⟨hc, rfl, fun w => ⟨[], by simp [addDerivedOps], by simp⟩, ?_, ?_⟩
    · simp [addDerivedOps]
    · intro k hk; simp at hk
  | cons op rest ih =>
    intro j wv cache hc
    -- the per-op hash / mutation step
    have hphc :
        CacheGood env
          ((if op.isCrudOpType then
              processCrudOp env op (env.hashNs op.nss % 4294967296) cache
            else (op, env.hashNs op.nss % 4294967296, cache)).2.2) ∧
        sameExceptCapped op
          ((if op.isCrudOpType then
              processCrudOp env op (env.hashNs op.nss % 4294967296) cache
            else (op, env.hashNs op.nss % 4294967296, cache)).1) := by
      by_cases hcrud : op.isCrudOpType = true
      · rw [if_pos hcrud]
        exact ⟨processCrudOp_cache env op _ cache hc,
          processCrudOp_sameExceptCapped env op _ cache hc⟩
      · rw [if_neg hcrud]
        exact ⟨hc, Or.inl rfl⟩
    simp only [addDerivedOps]
    set phc :=
      (if op.isCrudOpType then
          processCrudOp env op (env.hashNs op.nss % 4294967296) cache
        else (op, env.hashNs op.nss % 4294967296, cache)) with hphcdef
    set wv' := addToWriterVector (OpRef.derived p j) phc.2.1 wv with hwv'
    have hlen' : wv'.length = wv.length := addToWriterVector_length _ _ _
    obtain ⟨ihc, ihlen, ihext, ihfa, ihmem⟩ :=
      ih (j + 1) wv' phc.2.2 hphc.1
    refine ⟨ihc, by rw [ihlen, hlen'], ?_, ?_, ?_⟩
    · -- growth of each vector by pool-p handles only
      intro w
      obtain ⟨ext2, hext2, hext2d⟩ := ihext w
      have h1 := addToWriterVector_getD (OpRef.derived p j) phc.2.1 wv w
      by_cases hcond : w = phc.2.1 % wv.length ∧ phc.2.1 % wv.length < wv.length
      · refine ⟨[OpRef.derived p j] ++ ext2, ?_, ?_⟩
        · rw [hext2, hwv', h1, if_pos hcond]
          simp
        · intro x hx
          rcases List.mem_append.mp hx with hx | hx
          · exact ⟨j, List.mem_singleton.mp hx⟩
          · exact hext2d x hx
      · refine ⟨ext2, ?_, hext2d⟩
        rw [hext2, hwv', h1, if_neg hcond]
    · exact List.Forall₂.cons hphc.2 ihfa
    · -- every pool op handle is routed somewhere
      intro k hk hpos
      cases k with
      | zero =>
        refine ⟨phc.2.1 % wv.length, ?_⟩
        obtain ⟨ext2, hext2, _⟩ := ihext (phc.2.1 % wv.length)
        rw [hext2]
        refine List.mem_append_left _ ?_
        rw [hwv']
        simpa using addToWriterVector_mem (OpRef.derived p j) phc.2.1 wv hpos
      | succ k' =>
        have hk' : k' < rest.length := by simpa using hk
        obtain ⟨w, hw⟩ := ihmem k' hk' (by rw [hlen']; exact hpos)
        refine ⟨w, ?_⟩
        have : j + 1 + k' = j + (k' + 1) := by omega
        rwa [this] at hw

/-- Specification of `emplacePool`: the partial-transaction map, tracker
state and writer-vector count are untouched; the cache stays
catalog-consistent; each writer vector only grows by derived-op handles;
and a pool holding the (possibly capped-marked) input ops is appended. -/
theorem emplacePool_spec {σ : Type} (env : FillEnv σ) (pool : List OplogEntry)
    (st : LoopState σ) (hc : CacheGood env st.cache) :
    CacheGood env (emplacePool env pool st).cache ∧
    (emplacePool env pool st).wv.length = st.wv.length ∧
    (∀ w, ∃ ext, (emplacePool env pool st).wv.getD w [] = st.wv.getD w [] ++ ext ∧
        ∀ x ∈ ext, ∃ p k, x = OpRef.derived p k) ∧
    (emplacePool env pool st).partialTxn = st.partialTxn ∧
    (emplacePool env pool st).tr = st.tr ∧
    (emplacePool env pool st).derived =
      st.derived ++ [(addDerivedOps env st.derived.length 0 pool st.wv st.cache).1] := by
  obtain ⟨h1, h2, h3, _, _⟩ :=
    addDerivedOps_spec env st.derived.length pool 0 st.wv st.cache hc
  refine ⟨h1, h2, ?_, rfl, rfl, rfl⟩
  intro w
  obtain ⟨ext, hext, hd⟩ := h3 w
  exact ⟨ext, hext, fun x hx => ⟨st.derived.length, hd x hx⟩⟩

/-- Specification of `trackerStep`: the writer-vector count, cache
consistency and partial-transaction map are preserved, and vectors only
grow by derived-op handles. -/
theorem trackerStep_spec {σ : Type} (env : FillEnv σ) (u : Bool)
    (op : OplogEntry) (st : LoopState σ) (hc : CacheGood env st.cache) :
    CacheGood env (trackerStep env u op st).cache ∧
    (trackerStep env u op st).wv.length = st.wv.length ∧
    (∀ w, ∃ ext, (trackerStep env u op st).wv.getD w [] = st.wv.getD w [] ++ ext ∧
        ∀ x ∈ ext, ∃ p k, x = OpRef.derived p k) ∧
    (trackerStep env u op st).partialTxn = st.partialTxn := by
  unfold trackerStep
  cases u with
  | false =>
    exact ⟨hc, rfl, fun w => ⟨[], by simp, by simp⟩, rfl⟩
  | true =>
    simp only [if_true]
    cases hus : (env.updateSession st.tr op).2 with
    | none => exact ⟨hc, rfl, fun w => ⟨[], by simp, by simp⟩, rfl⟩
    | some nw =>
      obtain ⟨h1, h2, h3, h4, _, _⟩ := emplacePool_spec env nw st hc
      exact ⟨h1, h2, h3, h4⟩

theorem sameExceptCapped_fields (a b : OplogEntry) (h : sameExceptCapped a b) :
    b.isTerminalApplyOps = a.isTerminalApplyOps ∧
    b.isPreparedCommit = a.isPreparedCommit ∧
    b.sessionId = a.sessionId ∧ b.txnNumber = a.txnNumber ∧
    b.opTime = a.opTime ∧ b.nss = a.nss ∧ b.opType = a.opType := by
  rcases h with rfl | rfl <;> simp

theorem routeHash_noncrud {σ : Type} (env : FillEnv σ) (op : OplogEntry)
    (h : ¬ op.isCrudOpType = true) :
    routeHash env op = env.hashNs op.nss % 4294967296 := by
  unfold routeHash
  simp [h]

theorem noncrud_not_insert (op : OplogEntry) (h : ¬ op.isCrudOpType = true) :
    ¬ op.opType = OpType.insert := by
  intro hins
  exact h (by simp [OplogEntry.isCrudOpType, hins])

/-- Specification of `routeOrDerive`: it returns the op unchanged, keeps
the cache catalog-consistent and the writer-vector count fixed, appends to
the vectors only derived-op handles — except that a non-terminal,
non-prepared-commit op itself is appended, with handle `tag i`, exactly to
writer `hash % numWriters`. -/
theorem routeOrDerive_spec {σ : Type} (env : FillEnv σ) (tag : Nat → OpRef)
    (i : Nat) (op : OplogEntry) (hash : Nat) (st : LoopState σ)
    (hc : CacheGood env st.cache) :
    (routeOrDerive env tag i op hash st).1 = op ∧
    CacheGood env (routeOrDerive env tag i op hash st).2.cache ∧
    (routeOrDerive env tag i op hash st).2.wv.length = st.wv.length ∧
    (∀ w, ∃ ext,
      (routeOrDerive env tag i op hash st).2.wv.getD w [] = st.wv.getD w [] ++ ext ∧
      ∀ x ∈ ext, (∃ p k, x = OpRef.derived p k) ∨
        (x = tag i ∧ op.isTerminalApplyOps = false ∧
          (op.isPreparedCommit && env.mode = Mode.initialSync) = false ∧
          w = hash % st.wv.length)) ∧
    (op.isTerminalApplyOps = false →
      (op.isPreparedCommit && env.mode = Mode.initialSync) = false →
      0 < st.wv.length →
      tag i ∈ (routeOrDerive env tag i op hash st).2.wv.getD (hash % st.wv.length) []) := by
  by_cases hterm : op.isTerminalApplyOps = true
  · by_cases hsess : (op.sessionId.isSome && op.txnNumber.isSome) = true
    · have hres : routeOrDerive env tag i op hash st =
          (op, emplacePool env
            (env.readTxnOps op (st.partialTxn (op.sessionId.getD 0)))
            { st with partialTxn := updFn st.partialTxn (op.sessionId.getD 0) [] }) := by
        unfold routeOrDerive
        rw [if_pos hterm, if_pos hsess]
      rw [hres]
      obtain ⟨h1, h2, h3, _, _, _⟩ := emplacePool_spec env _
        { st with partialTxn := updFn st.partialTxn (op.sessionId.getD 0) [] } hc
      refine ⟨rfl, h1, h2, ?_, ?_⟩
      · intro w
        obtain ⟨ext, hext, hd⟩ := h3 w
        exact ⟨ext, hext, fun x hx => Or.inl (hd x hx)⟩
      · intro hterm' _ _
        rw [hterm'] at hterm
        simp at hterm
    · have hres : routeOrDerive env tag i op hash st =
          (op, emplacePool env (env.extractOperations op) st) := by
        unfold routeOrDerive
        rw [if_pos hterm, if_neg hsess]
      rw [hres]
      obtain ⟨h1, h2, h3, _, _, _⟩ := emplacePool_spec env (env.extractOperations op) st hc
      refine ⟨rfl, h1, h2, ?_, ?_⟩
      · intro w
        obtain ⟨ext, hext, hd⟩ := h3 w
        exact ⟨ext, hext, fun x hx => Or.inl (hd x hx)⟩
      · intro hterm' _ _
        rw [hterm'] at hterm
        simp at hterm
  · have htermf : op.isTerminalApplyOps = false := by
      revert hterm; cases op.isTerminalApplyOps <;> simp
    by_cases hprep : (op.isPreparedCommit && env.mode = Mode.initialSync) = true
    · have hres : routeOrDerive env tag i op hash st =
          (op, emplacePool env
            (env.readTxnOps op (st.partialTxn (op.sessionId.getD 0)))
            { st with partialTxn := updFn st.partialTxn (op.sessionId.getD 0) [] }) := by
        unfold routeOrDerive
        rw [if_neg hterm, if_pos hprep]
      rw [hres]
      obtain ⟨h1, h2, h3, _, _, _⟩ := emplacePool_spec env _
        { st with partialTxn := updFn st.partialTxn (op.sessionId.getD 0) [] } hc
      refine ⟨rfl, h1, h2, ?_, ?_⟩
      · intro w
        obtain ⟨ext, hext, hd⟩ := h3 w
        exact ⟨ext, hext, fun x hx => Or.inl (hd x hx)⟩
      · intro _ hprep' _
        rw [hprep'] at hprep
        simp at hprep
    · have hprepf : (op.isPreparedCommit && env.mode = Mode.initialSync) = false := by
        revert hprep
        cases (op.isPreparedCommit && env.mode = Mode.initialSync) <;> simp
      have hres : routeOrDerive env tag i op hash st =
          (op, { st with wv := addToWriterVector (tag i) hash st.wv }) := by
        unfold routeOrDerive
        rw [if_neg hterm, if_neg hprep]
      rw [hres]
      refine ⟨rfl, hc, addToWriterVector_length _ _ _, ?_, ?_⟩
      · intro w
        have h1 := addToWriterVector_getD (tag i) hash st.wv w
        by_cases hcond : w = hash % st.wv.length ∧ hash % st.wv.length < st.wv.length
        · refine ⟨[tag i], ?_, ?_⟩
          · rw [h1, if_pos hcond]
          · intro x hx
            rcases List.mem_singleton.mp hx with rfl
            exact Or.inr ⟨rfl, htermf, hprepf, hcond.1⟩
        · refine ⟨[], ?_, by simp⟩
          rw [h1, if_neg hcond, List.append_nil]
      · intro _ _ hpos
        exact addToWriterVector_mem (tag i) hash st.wv hpos

/-- Specification of `deriveOneOpCore` for an op past the floor filter: it
returns `stepOutOp` of the op, preserves cache consistency and the number
of writer vectors, appends only derived-op handles — except that an op
which the pass routes itself (`routesTo` is `some`) is appended, with
handle `tag i`, exactly to writer `routeHash % numWriters`. -/
theorem deriveOneOpCore_spec {σ : Type} (env : FillEnv σ) (tag : Nat → OpRef)
    (i : Nat) (op : OplogEntry) (st : LoopState σ) (hc : CacheGood env st.cache)
    (hfloor : ¬ opTimeLE op.opTime env.beginApplyingOpTime) :
    (deriveOneOpCore env tag i op st).1 = stepOutOp env op ∧
    CacheGood env (deriveOneOpCore env tag i op st).2.cache ∧
    (deriveOneOpCore env tag i op st).2.wv.length = st.wv.length ∧
    (∀ w, ∃ ext,
      (deriveOneOpCore env tag i op st).2.wv.getD w [] = st.wv.getD w [] ++ ext ∧
      ∀ x ∈ ext, (∃ p k, x = OpRef.derived p k) ∨
        (x = tag i ∧ routesTo env op ≠ none ∧
          w = routeHash env op % st.wv.length)) ∧
    (routesTo env op ≠ none → 0 < st.wv.length →
      tag i ∈ (deriveOneOpCore env tag i op st).2.wv.getD
        (routeHash env op % st.wv.length) []) := by
  by_cases hpart :
      (op.isPartialTransaction || (op.shouldPrepare && env.mode = Mode.initialSync)) = true
  · -- buffered partial-transaction entry: only partialTxn changes
    have hroutes : routesTo env op = none := by
      unfold routesTo; rw [if_neg hfloor, if_pos hpart]
    have hres : deriveOneOpCore env tag i op st =
        (op, { st with partialTxn := (updFn st.partialTxn (op.sessionId.getD 0)
                (st.partialTxn (op.sessionId.getD 0) ++ [op])) }) := by
      unfold deriveOneOpCore; rw [if_pos hpart]
    have hstep : stepOutOp env op = op := by
      unfold stepOutOp; rw [if_neg hfloor, if_pos hpart]
    rw [hres]
    exact ⟨hstep.symm, hc, rfl, fun w => ⟨[], by simp, by simp⟩,
      fun hr => absurd hroutes hr⟩
  · have hstep : stepOutOp env op =
        (if op.opType = OpType.insert ∧ (env.catalog op.nss).isCapped = true then
          { op with isForCappedCollection := true } else op) := by
      unfold stepOutOp; rw [if_neg hfloor, if_neg hpart]
    have hroutes : routesTo env op =
        (if op.isTerminalApplyOps then none
         else if op.isPreparedCommit && env.mode = Mode.initialSync then none
         else some (routeHash env op)) := by
      unfold routesTo; rw [if_neg hfloor, if_neg hpart]
    set st2 := (if op.commandType = CommandType.abortTransaction then
        { st with partialTxn := updFn st.partialTxn (op.sessionId.getD 0) [] }
      else st) with hst2def
    set phc := (if op.isCrudOpType then
        processCrudOp env op (env.hashNs op.nss % 4294967296) st2.cache
      else (op, env.hashNs op.nss % 4294967296, st2.cache)) with hphcdef
    have hres : deriveOneOpCore env tag i op st =
        routeOrDerive env tag i phc.1 phc.2.1 { st2 with cache := phc.2.2 } := by
      rw [hst2def, hphcdef]
      unfold deriveOneOpCore
      rw [if_neg hpart]
    have hst2cache : st2.cache = st.cache := by
      rw [hst2def]; split <;> rfl
    have hst2wv : st2.wv = st.wv := by
      rw [hst2def]; split <;> rfl
    have hc2 : CacheGood env st2.cache := by rw [hst2cache]; exact hc
    have hphc_cache : CacheGood env phc.2.2 := by
      by_cases hcrud : op.isCrudOpType = true
      · rw [hphcdef, if_pos hcrud]
        exact processCrudOp_cache env op _ st2.cache hc2
      · rw [hphcdef, if_neg hcrud]; exact hc2
    have hphc_same : sameExceptCapped op phc.1 := by
      by_cases hcrud : op.isCrudOpType = true
      · rw [hphcdef, if_pos hcrud]
        exact processCrudOp_sameExceptCapped env op _ st2.cache hc2
      · rw [hphcdef, if_neg hcrud]; exact Or.inl rfl
    have hphc_hash : phc.2.1 = routeHash env op := by
      by_cases hcrud : op.isCrudOpType = true
      · rw [hphcdef, if_pos hcrud]
        exact processCrudOp_routeHash env op st2.cache hc2 hcrud
      · rw [hphcdef, if_neg hcrud]
        exact (routeHash_noncrud env op hcrud).symm
    have hphc_out : phc.1 = stepOutOp env op := by
      rw [hstep]
      by_cases hcrud : op.isCrudOpType = true
      · rw [hphcdef, if_pos hcrud]
        exact processCrudOp_op env op _ st2.cache hc2
      · rw [hphcdef, if_neg hcrud]
        rw [if_neg (fun hcon => noncrud_not_insert op hcrud hcon.1)]
    obtain ⟨hfT, hfP, _, _, _, _, _⟩ := sameExceptCapped_fields op phc.1 hphc_same
    obtain ⟨r1, r2, r3, r4, r5⟩ :=
      routeOrDerive_spec env tag i phc.1 phc.2.1 { st2 with cache := phc.2.2 }
        hphc_cache
    rw [hres]
    refine ⟨r1.trans hphc_out, r2, ?_, ?_, ?_⟩
    · rw [r3]
      show st2.wv.length = st.wv.length
      rw [hst2wv]
    · intro w
      obtain ⟨ext, hext, hd⟩ := r4 w
      refine ⟨ext, ?_, ?_⟩
      · rw [hext]
        show st2.wv.getD w [] ++ ext = st.wv.getD w [] ++ ext
        rw [hst2wv]
      · intro x hx
        rcases hd x hx with hder | ⟨htag, htermf, hprepf, hw⟩
        · exact Or.inl hder
        · rw [hfT] at htermf
          rw [hfP] at hprepf
          refine Or.inr ⟨htag, ?_, ?_⟩
          · rw [hroutes, htermf, hprepf]; simp
          · rw [hw, hphc_hash]
            show routeHash env op % st2.wv.length = routeHash env op % st.wv.length
            rw [hst2wv]
    · intro hr hpos
      have htermf : op.isTerminalApplyOps = false := by
        cases hT : op.isTerminalApplyOps
        · rfl
        · exact absurd (by rw [hroutes, hT]; simp) hr
      have hprepf : (op.isPreparedCommit && env.mode = Mode.initialSync) = false := by
        cases hP : (op.isPreparedCommit && env.mode = Mode.initialSync)
        · rfl
        · exact absurd (by rw [hroutes, htermf, hP]; simp) hr
      have hpos2 : 0 < ({ st2 with cache := phc.2.2 } : LoopState σ).wv.length := by
        show 0 < st2.wv.length
        rw [hst2wv]; exact hpos
      have hmem := r5 (by rw [hfT]; exact htermf)
        (by rw [hfP]; exact hprepf) hpos2
      have hlen : ({ st2 with cache := phc.2.2 } : LoopState σ).wv.length
          = st.wv.length := by
        show st2.wv.length = st.wv.length
        rw [hst2wv]
      rw [hlen] at hmem
      rw [← hphc_hash]
      exact hmem

/-- Specification of one full loop iteration `deriveOneOp`: the returned op
value is `stepOutOp`; cache consistency, the writer-vector count are
preserved; vectors grow only by derived-op handles plus (exactly when
`routesTo` is `some`) the op's own `tag i` handle in writer
`routeHash % numWriters`. -/
theorem deriveOneOp_spec {σ : Type} (env : FillEnv σ) (u : Bool)
    (tag : Nat → OpRef) (i : Nat) (op : OplogEntry) (st : LoopState σ)
    (hc : CacheGood env st.cache) :
    (deriveOneOp env u tag i op st).1 = stepOutOp env op ∧
    CacheGood env (deriveOneOp env u tag i op st).2.cache ∧
    (deriveOneOp env u tag i op st).2.wv.length = st.wv.length ∧
    (∀ w, ∃ ext,
      (deriveOneOp env u tag i op st).2.wv.getD w [] = st.wv.getD w [] ++ ext ∧
      ∀ x ∈ ext, (∃ p k, x = OpRef.derived p k) ∨
        (x = tag i ∧ routesTo env op ≠ none ∧
          w = routeHash env op % st.wv.length)) ∧
    (routesTo env op ≠ none → 0 < st.wv.length →
      tag i ∈ (deriveOneOp env u tag i op st).2.wv.getD
        (routeHash env op % st.wv.length) []) := by
  by_cases hfloor : opTimeLE op.opTime env.beginApplyingOpTime
  · have hres : deriveOneOp env u tag i op st = (op, st) := by
      unfold deriveOneOp; rw [if_pos hfloor]
    have hroutes : routesTo env op = none := by
      unfold routesTo; rw [if_pos hfloor]
    have hstep : stepOutOp env op = op := by
      unfold stepOutOp; rw [if_pos hfloor]
    rw [hres]
    exact ⟨hstep.symm, hc, rfl, fun w => ⟨[], by simp, by simp⟩,
      fun hr => absurd hroutes hr⟩
  · have hres : deriveOneOp env u tag i op st =
        deriveOneOpCore env tag i op (trackerStep env u op st) := by
      unfold deriveOneOp; rw [if_neg hfloor]
    obtain ⟨t1, t2, t3, _⟩ := trackerStep_spec env u op st hc
    obtain ⟨c1, c2, c3, c4, c5⟩ :=
      deriveOneOpCore_spec env tag i op (trackerStep env u op st) t1 hfloor
    rw [hres]
    refine ⟨c1, c2, by rw [c3, t2], ?_, ?_⟩
    · intro w
      obtain ⟨e1, he1, hd1⟩ := t3 w
      obtain ⟨e2, he2, hd2⟩ := c4 w
      refine ⟨e1 ++ e2, by rw [he2, he1, List.append_assoc], ?_⟩
      intro x hx
      rcases List.mem_append.mp hx with hx | hx
      · exact Or.inl (hd1 x hx)
      · rcases hd2 x hx with hder | ⟨htag, hsome, hw⟩
        · exact Or.inl hder
        · exact Or.inr ⟨htag, hsome, by rw [hw, t2]⟩
    · intro hr hpos
      have hmem := c5 hr (by rw [t2]; exact hpos)
      rw [t2] at hmem
      exact hmem

/-- Specification of the partitioning loop: the returned pairs are the
input pairs with `stepOutOp` applied to each op; cache consistency and the
writer-vector count are preserved; each writer vector grows only by
derived-op handles and the `tag i` handles of pairs the pass routes
itself, each such `tag i` appearing only in writer
`routeHash % numWriters` — and every routed pair's handle does appear
there. -/
theorem deriveOpsLoop_spec {σ : Type} (env : FillEnv σ) (u : Bool)
    (tag : Nat → OpRef) :
    ∀ (pairs : List (Nat × OplogEntry)) (st : LoopState σ),
      CacheGood env st.cache →
      (deriveOpsLoop env u tag pairs st).1 =
        pairs.map (fun pr => (pr.1, stepOutOp env pr.2)) ∧
      CacheGood env (deriveOpsLoop env u tag pairs st).2.cache ∧
      (deriveOpsLoop env u tag pairs st).2.wv.length = st.wv.length ∧
      (∀ w, ∃ ext,
        (deriveOpsLoop env u tag pairs st).2.wv.getD w [] = st.wv.getD w [] ++ ext ∧
        ∀ x ∈ ext, (∃ p k, x = OpRef.derived p k) ∨
          (∃ i op, (i, op) ∈ pairs ∧ x = tag i ∧ routesTo env op ≠ none ∧
            w = routeHash env op % st.wv.length)) ∧
      (∀ i op, (i, op) ∈ pairs → routesTo env op ≠ none → 0 < st.wv.length →
        tag i ∈ (deriveOpsLoop env u tag pairs st).2.wv.getD
          (routeHash env op % st.wv.length) []) := by
  intro pairs
  induction pairs with
  | nil =>
    intro st hc
    refine ⟨rfl, hc, rfl, fun w => ⟨[], by simp [deriveOpsLoop], by simp⟩, ?_⟩
    intro i op hmem
    simp at hmem
  | cons pr rest ih =>
    obtain ⟨i, op⟩ := pr
    intro st hc
    have hunf : deriveOpsLoop env u tag ((i, op) :: rest) st =
        ((i, (deriveOneOp env u tag i op st).1) ::
          (deriveOpsLoop env u tag rest (deriveOneOp env u tag i op st).2).1,
         (deriveOpsLoop env u tag rest (deriveOneOp env u tag i op st).2).2) := rfl
    obtain ⟨s1, s2, s3, s4, s5⟩ := deriveOneOp_spec env u tag i op st hc
    obtain ⟨ih1, ih2, ih3, ih4, ih5⟩ :=
      ih (deriveOneOp env u tag i op st).2 s2
    rw [hunf]
    refine ⟨?_, ih2, by rw [ih3, s3], ?_, ?_⟩
    · simp only [List.map_cons]
      exact congrArg₂ List.cons (by rw [s1]) ih1
    · intro w
      obtain ⟨e1, he1, hd1⟩ := s4 w
      obtain ⟨e2, he2, hd2⟩ := ih4 w
      refine ⟨e1 ++ e2, by rw [he2, he1, List.append_assoc], ?_⟩
      intro x hx
      rcases List.mem_append.mp hx with hx | hx
      · rcases hd1 x hx with hder | ⟨htag, hsome, hw⟩
        · exact Or.inl hder
        · exact Or.inr ⟨i, op, List.mem_cons_self _ _, htag, hsome, hw⟩
      · rcases hd2 x hx with hder | ⟨i', op', hmem', htag', hsome', hw'⟩
        · exact Or.inl hder
        · exact Or.inr ⟨i', op', List.mem_cons_of_mem _ hmem', htag', hsome',
            by rw [hw', s3]⟩
    · intro i0 op0 hmem hr hpos
      rcases List.mem_cons.mp hmem with heq | hmem'
      · obtain ⟨hi, hop⟩ := Prod.mk.injEq .. ▸ heq
        subst hi; subst hop
        have hstep := s5 hr hpos
        obtain ⟨e2, he2, _⟩ := ih4 (routeHash env op0 % st.wv.length)
        rw [he2]
        exact List.mem_append_left _ hstep
      · have := ih5 i0 op0 hmem' hr (by rw [s3]; exact hpos)
        rw [s3] at this
        exact this

/-! ### Batch-order (InputMono) preservation -/

theorem InputBound_mono (b b' : Nat) (v : List OpRef) (h : b ≤ b')
    (hb : InputBound b v) : InputBound b' v :=
  fun r hr i hi => lt_of_lt_of_le (hb r hr i hi) h

/-- Appending refs that are either derived-op handles or the handle of the
next batch position `b` preserves batch-position monotonicity. -/
theorem InputMono_append (v ext : List OpRef) (b : Nat)
    (h1 : InputMono v) (h2 : InputBound b v)
    (hext : ∀ x ∈ ext, (∃ p k, x = OpRef.derived p k) ∨ x = OpRef.input b) :
    InputMono (v ++ ext) ∧ InputBound (b + 1) (v ++ ext) := by
  constructor
  · intro p hp q hq hpq i j hgp hgq
    rcases Nat.lt_or_ge q v.length with hqv | hqv
    · have hpv : p < v.length := lt_of_le_of_lt hpq hqv
      rw [List.getElem?_append_left hpv] at hgp
      rw [List.getElem?_append_left hqv] at hgq
      exact h1 p hpv q hqv hpq i j hgp hgq
    · have hgq' : ext[q - v.length]? = some (OpRef.input j) := by
        rw [List.getElem?_append_right hqv] at hgq; exact hgq
      have hjext : OpRef.input j ∈ ext := List.getElem?_mem hgq'
      have hj : j = b := by
        rcases hext _ hjext with ⟨p', k', hpk⟩ | hb
        · cases hpk
        · cases hb; rfl
      rcases Nat.lt_or_ge p v.length with hpv | hpv
      · rw [List.getElem?_append_left hpv] at hgp
        have hmem : OpRef.input i ∈ v := List.getElem?_mem hgp
        have := h2 _ hmem i rfl
        omega
      · have hgp' : ext[p - v.length]? = some (OpRef.input i) := by
          rw [List.getElem?_append_right hpv] at hgp; exact hgp
        have hiext : OpRef.input i ∈ ext := List.getElem?_mem hgp'
        have hi : i = b := by
          rcases hext _ hiext with ⟨p', k', hpk⟩ | hb
          · cases hpk
          · cases hb; rfl
        omega
  · intro r hr i hi
    rcases List.mem_append.mp hr with hrv | hrext
    · exact lt_of_lt_of_le (h2 r hrv i hi) (Nat.le_succ b)
    · subst hi
      rcases hext _ hrext with ⟨p', k', hpk⟩ | hb
      · cases hpk
      · cases hb; omega

/-- The tracked (first) pass preserves batch-order monotonicity of each
writer vector when its pairs' positions increase from `b` upward. -/
theorem deriveOpsLoop_inputMono {σ : Type} (env : FillEnv σ) (u : Bool) :
    ∀ (pairs : List (Nat × OplogEntry)) (b : Nat) (st : LoopState σ),
      CacheGood env st.cache → PairsInc b pairs →
      (∀ w, InputMono (st.wv.getD w []) ∧ InputBound b (st.wv.getD w [])) →
      ∀ w, InputMono ((deriveOpsLoop env u OpRef.input pairs st).2.wv.getD w []) ∧
        InputBound (endBound b pairs)
          ((deriveOpsLoop env u OpRef.input pairs st).2.wv.getD w []) := by
  intro pairs
  induction pairs with
  | nil =>
    intro b st _ _ hwv w
    exact hwv w
  | cons pr rest ih =>
    obtain ⟨i, op⟩ := pr
    intro b st hc hinc hwv w
    obtain ⟨_, s2, _, s4, _⟩ := deriveOneOp_spec env u OpRef.input i op st hc
    have hstep : ∀ w',
        InputMono ((deriveOneOp env u OpRef.input i op st).2.wv.getD w' []) ∧
        InputBound (i + 1)
          ((deriveOneOp env u OpRef.input i op st).2.wv.getD w' []) := by
      intro w'
      obtain ⟨ext, hext, hd⟩ := s4 w'
      rw [hext]
      refine InputMono_append _ ext i (hwv w').1
        (InputBound_mono b i _ hinc.1 (hwv w').2) ?_
      intro x hx
      rcases hd x hx with hder | ⟨htag, _, _⟩
      · exact Or.inl hder
      · exact Or.inr htag
    have hunf : deriveOpsLoop env u OpRef.input ((i, op) :: rest) st =
        ((i, (deriveOneOp env u OpRef.input i op st).1) ::
          (deriveOpsLoop env u OpRef.input rest
            (deriveOneOp env u OpRef.input i op st).2).1,
         (deriveOpsLoop env u OpRef.input rest
            (deriveOneOp env u OpRef.input i op st).2).2) := rfl
    rw [hunf]
    exact ih (i + 1) (deriveOneOp env u OpRef.input i op st).2 s2 hinc.2 hstep w

theorem pairsInc_enumFrom (l : List OplogEntry) :
    ∀ n, PairsInc n (List.enumFrom n l) := by
  induction l with
  | nil => intro n; trivial
  | cons a t ih =>
    intro n
    exact ⟨le_refl n, ih (n + 1)⟩

/-! ### Composition: the full `fillWriterVectors` pass -/

/-- Specification of `secondPass`: the output ops are the tracked pass's
mutated batch; writer vectors keep their count and only grow by handles
that are not input-batch handles; the exposed partial-transaction map is
the tracked pass's. -/
theorem secondPass_spec {σ : Type} (env : FillEnv σ) (st1 : LoopState σ)
    (pairs1out : List (Nat × OplogEntry)) :
    (secondPass env st1 pairs1out).ops = pairs1out.map Prod.snd ∧
    (secondPass env st1 pairs1out).wv.length = st1.wv.length ∧
    (∀ w, ∃ ext, (secondPass env st1 pairs1out).wv.getD w [] =
        st1.wv.getD w [] ++ ext ∧ ∀ x ∈ ext, ∀ i, x ≠ OpRef.input i) ∧
    (secondPass env st1 pairs1out).partialTxn = st1.partialTxn := by
  by_cases hnw : (env.flushAll st1.tr).isEmpty = true
  · have hres : secondPass env st1 pairs1out =
        ⟨pairs1out.map Prod.snd, st1.wv, st1.derived, st1.partialTxn, st1.tr⟩ := by
      unfold secondPass
      rw [if_pos hnw]
    rw [hres]
    exact ⟨rfl, rfl, fun w => ⟨[], by simp, by simp⟩, rfl⟩
  · have hc' : CacheGood env
        (({ wv := st1.wv, derived := st1.derived ++ [env.flushAll st1.tr],
            partialTxn := fun _ => [], cache := [],
            tr := st1.tr } : LoopState σ)).cache := by
      intro pr hpr; simp at hpr
    obtain ⟨_, _, l3, l4, _⟩ :=
      deriveOpsLoop_spec env false (OpRef.derived st1.derived.length)
        (env.flushAll st1.tr).enum
        ⟨st1.wv, st1.derived ++ [env.flushAll st1.tr], fun _ => [], [], st1.tr⟩
        hc'
    have hres : secondPass env st1 pairs1out =
        ⟨pairs1out.map Prod.snd,
          (deriveOpsLoop env false (OpRef.derived st1.derived.length)
            (env.flushAll st1.tr).enum
            ⟨st1.wv, st1.derived ++ [env.flushAll st1.tr], fun _ => [], [],
              st1.tr⟩).2.wv,
          ((deriveOpsLoop env false (OpRef.derived st1.derived.length)
            (env.flushAll st1.tr).enum
            ⟨st1.wv, st1.derived ++ [env.flushAll st1.tr], fun _ => [], [],
              st1.tr⟩).2.derived).set st1.derived.length
            ((deriveOpsLoop env false (OpRef.derived st1.derived.length)
              (env.flushAll st1.tr).enum
              ⟨st1.wv, st1.derived ++ [env.flushAll st1.tr], fun _ => [], [],
                st1.tr⟩).1.map Prod.snd),
          st1.partialTxn, st1.tr⟩ := by
      unfold secondPass
      rw [if_neg hnw]
    rw [hres]
    refine ⟨rfl, l3, ?_, rfl⟩
    intro w
    obtain ⟨ext, hext, hd⟩ := l4 w
    refine ⟨ext, hext, ?_⟩
    intro x hx i
    rcases hd x hx with ⟨p', k', hpk⟩ | ⟨i', op', _, htag, _, _⟩
    · rw [hpk]; intro hcon; cases hcon
    · rw [htag]; intro hcon; cases hcon

/-- Master specification of `fillWriterVectors` for the input batch: the
batch comes back as `stepOutOp` of each op; there are `numWriters` writer
vectors; an input-batch handle `OpRef.input i` occurs in a vector `w` only
if the pass routes op `i` and `w` is its hash-designated writer; every
routed op's handle does appear in that writer; and each vector lists
input-batch handles in batch order. -/
theorem fillWriterVectors_master {σ : Type} (env : FillEnv σ)
    (ops : List OplogEntry) (numWriters : Nat) :
    (fillWriterVectors env ops numWriters).ops = ops.map (stepOutOp env) ∧
    (fillWriterVectors env ops numWriters).wv.length = numWriters ∧
    (∀ w, ∀ x ∈ (fillWriterVectors env ops numWriters).wv.getD w [],
      ∀ i, x = OpRef.input i →
        ∃ op, ops[i]? = some op ∧ routesTo env op ≠ none ∧
          w = routeHash env op % numWriters) ∧
    (∀ i op, ops[i]? = some op → routesTo env op ≠ none → 0 < numWriters →
      OpRef.input i ∈ (fillWriterVectors env ops numWriters).wv.getD
        (routeHash env op % numWriters) []) ∧
    (∀ w, InputMono ((fillWriterVectors env ops numWriters).wv.getD w [])) := by
  have hc0 : CacheGood env
      (({ wv := List.replicate numWriters [], derived := [],
          partialTxn := fun _ => [], cache := [],
          tr := env.initTracker } : LoopState σ)).cache := by
    intro pr hpr; simp at hpr
  have hlen0 :
      (({ wv := List.replicate numWriters [], derived := [],
          partialTxn := fun _ => [], cache := [],
          tr := env.initTracker } : LoopState σ)).wv.length = numWriters := by
    simp
  have hget0 : ∀ w,
      (({ wv := List.replicate numWriters [], derived := [],
          partialTxn := fun _ => [], cache := [],
          tr := env.initTracker } : LoopState σ)).wv.getD w [] = [] :=
    fun w => getD_replicate_nil numWriters w
  obtain ⟨l1, _, l3, l4, l5⟩ :=
    deriveOpsLoop_spec env true OpRef.input ops.enum
      ⟨List.replicate numWriters [], [], fun _ => [], [], env.initTracker⟩ hc0
  have hmono1 :=
    deriveOpsLoop_inputMono env true ops.enum 0
      ⟨List.replicate numWriters [], [], fun _ => [], [], env.initTracker⟩ hc0
      (pairsInc_enumFrom ops 0)
      (by
        intro w
        rw [hget0]
        exact ⟨fun p hp => by simp at hp, fun r hr => by simp at hr⟩)
  obtain ⟨p1, p2, p3, _⟩ :=
    secondPass_spec env
      (deriveOpsLoop env true OpRef.input ops.enum
        ⟨List.replicate numWriters [], [], fun _ => [], [], env.initTracker⟩).2
      (deriveOpsLoop env true OpRef.input ops.enum
        ⟨List.replicate numWriters [], [], fun _ => [], [], env.initTracker⟩).1
  have hres : fillWriterVectors env ops numWriters =
      secondPass env
        (deriveOpsLoop env true OpRef.input ops.enum
          ⟨List.replicate numWriters [], [], fun _ => [], [], env.initTracker⟩).2
        (deriveOpsLoop env true OpRef.input ops.enum
          ⟨List.replicate numWriters [], [], fun _ => [], [],
            env.initTracker⟩).1 := rfl
  rw [hres]
  refine ⟨?_, ?_, ?_, ?_, ?_⟩
  · -- returned ops are the stepOutOp images
    rw [p1, l1, List.map_map]
    have hcomp : (Prod.snd ∘ fun pr : Nat × OplogEntry =>
        (pr.1, stepOutOp env pr.2)) = stepOutOp env ∘ Prod.snd := rfl
    rw [hcomp, ← List.map_map, List.enum_map_snd]
  · rw [p2, l3, hlen0]
  · -- characterization of input handles
    intro w x hx i hxi
    obtain ⟨ext2, hext2, hni2⟩ := p3 w
    rw [hext2] at hx
    rcases List.mem_append.mp hx with hx | hx
    · obtain ⟨ext1, hext1, hd1⟩ := l4 w
      rw [hext1, hget0] at hx
      simp only [List.nil_append] at hx
      rcases hd1 x hx with ⟨p', k', hpk⟩ | ⟨i', op', hmem', htag', hsome', hw'⟩
      · rw [hxi] at hpk; cases hpk
      · rw [hxi] at htag'
        cases htag'
        refine ⟨op', List.mk_mem_enum_iff_getElem?.mp hmem', hsome', ?_⟩
        rw [hw', hlen0]
    · exact absurd hxi (hni2 x hx i)
  · -- routed ops appear in their designated writer
    intro i op hop hr hpos
    have hmem := l5 i op (List.mk_mem_enum_iff_getElem?.mpr hop) hr
      (by rw [hlen0]; exact hpos)
    obtain ⟨ext2, hext2, _⟩ := p3 (routeHash env op % numWriters)
    rw [hext2]
    refine List.mem_append_left _ ?_
    rw [hlen0] at hmem
    exact hmem
  · -- batch order within each vector
    intro w
    obtain ⟨ext2, hext2, hni2⟩ := p3 w
    rw [hext2]
    obtain ⟨hm1, hb1⟩ := hmono1 w
    refine (InputMono_append _ ext2 (endBound 0 ops.enum) hm1 hb1 ?_).1
    intro x hx
    cases x with
    | input i' => exact absurd rfl (hni2 _ hx i')
    | derived p' k' => exact Or.inl ⟨p', k', rfl⟩

/-! ### Bridging lemmas for the claims -/

theorem bool_eq_false {b : Bool} (h : ¬ b = true) : b = false := by
  cases b
  · rfl
  · exact absurd rfl h

/-- An op the pass routes itself is above the floor, not buffered, not a
terminal applyOps and not a prepared commit during initial sync. -/
theorem routesTo_ne_none_elim {σ : Type} (env : FillEnv σ) (op : OplogEntry)
    (hr : routesTo env op ≠ none) :
    ¬ opTimeLE op.opTime env.beginApplyingOpTime ∧
    (op.isPartialTransaction || (op.shouldPrepare && env.mode = Mode.initialSync)) = false ∧
    op.isTerminalApplyOps = false ∧
    (op.isPreparedCommit && env.mode = Mode.initialSync) = false := by
  unfold routesTo at hr
  by_cases h1 : opTimeLE op.opTime env.beginApplyingOpTime
  · rw [if_pos h1] at hr; exact absurd rfl hr
  · rw [if_neg h1] at hr
    by_cases h2 : (op.isPartialTransaction ||
        (op.shouldPrepare && env.mode = Mode.initialSync)) = true
    · rw [if_pos h2] at hr; exact absurd rfl hr
    · rw [if_neg h2] at hr
      by_cases h3 : op.isTerminalApplyOps = true
      · rw [if_pos h3] at hr; exact absurd rfl hr
      · rw [if_neg h3] at hr
        by_cases h4 : (op.isPreparedCommit && env.mode = Mode.initialSync) = true
        · rw [if_pos h4] at hr; exact absurd rfl hr
        · exact ⟨h1, bool_eq_false h2, bool_eq_false h3, bool_eq_false h4⟩

theorem routesTo_some_intro {σ : Type} (env : FillEnv σ) (op : OplogEntry)
    (h1 : ¬ opTimeLE op.opTime env.beginApplyingOpTime)
    (h2 : (op.isPartialTransaction ||
      (op.shouldPrepare && env.mode = Mode.initialSync)) = false)
    (h3 : op.isTerminalApplyOps = false)
    (h4 : (op.isPreparedCommit && env.mode = Mode.initialSync) = false) :
    routesTo env op = some (routeHash env op) := by
  unfold routesTo
  rw [if_neg h1, if_neg (by rw [h2]; exact Bool.false_ne_true),
    if_neg (by rw [h3]; exact Bool.false_ne_true),
    if_neg (by rw [h4]; exact Bool.false_ne_true)]

theorem routesTo_none_of_floor {σ : Type} (env : FillEnv σ) (op : OplogEntry)
    (h : opTimeLE op.opTime env.beginApplyingOpTime) : routesTo env op = none := by
  unfold routesTo; rw [if_pos h]

theorem routesTo_none_of_buffered {σ : Type} (env : FillEnv σ) (op : OplogEntry)
    (h1 : ¬ opTimeLE op.opTime env.beginApplyingOpTime)
    (h2 : (op.isPartialTransaction ||
      (op.shouldPrepare && env.mode = Mode.initialSync)) = true) :
    routesTo env op = none := by
  unfold routesTo; rw [if_neg h1, if_pos h2]

/-- The value of a routed op after the pass: unchanged unless it is an
insert into a capped collection. -/
theorem stepOutOp_eq_of_routed {σ : Type} (env : FillEnv σ) (op : OplogEntry)
    (hr : routesTo env op ≠ none) :
    stepOutOp env op =
      (if op.opType = OpType.insert ∧ (env.catalog op.nss).isCapped = true then
        { op with isForCappedCollection := true }
       else op) := by
  obtain ⟨h1, h2, _, _⟩ := routesTo_ne_none_elim env op hr
  unfold stepOutOp
  rw [if_neg h1, if_neg (by rw [h2]; exact Bool.false_ne_true)]

theorem stepOutOp_skip {σ : Type} (env : FillEnv σ) (op : OplogEntry)
    (h : opTimeLE op.opTime env.beginApplyingOpTime) : stepOutOp env op = op := by
  unfold stepOutOp; rw [if_pos h]

/-- The routing hash of a capped-collection op never mixes the `_id`. -/
theorem routeHash_capped {σ : Type} (env : FillEnv σ) (op : OplogEntry)
    (hcap : (env.catalog op.nss).isCapped = true) :
    routeHash env op = env.hashNs op.nss % 4294967296 := by
  unfold routeHash
  rw [if_neg (fun hcon => by rw [hcap] at hcon; exact Bool.noConfusion hcon.2.2)]

/-- Two CRUD ops on the same namespace with the same `_id` element (or on a
capped collection, or on an engine without doc locking) receive the same
routing hash. -/
theorem routeHash_same_doc {σ : Type} (env : FillEnv σ) (a b : OplogEntry)
    (hca : a.isCrudOpType = true) (hcb : b.isCrudOpType = true)
    (hns : a.nss = b.nss)
    (hdoc : a.idElem = b.idElem ∨ (env.catalog a.nss).isCapped = true ∨
      env.supportsDocLocking = false) :
    routeHash env a = routeHash env b := by
  unfold routeHash
  rw [hns]
  by_cases hmix : (env.catalog b.nss).isCapped = false ∧ env.supportsDocLocking = true
  · rw [if_pos ⟨hca, hmix.2, hmix.1⟩, if_pos ⟨hcb, hmix.2, hmix.1⟩]
    rcases hdoc with hid | hcap | hdl
    · rw [hid]
    · rw [hns] at hcap
      rw [hcap] at hmix
      exact Bool.noConfusion hmix.1
    · rw [hdl] at hmix
      exact absurd hmix.2 Bool.false_ne_true
  · have hnot : ¬ (b.isCrudOpType = true ∧ env.supportsDocLocking = true ∧
        (env.catalog b.nss).isCapped = false) := by
      intro hcon
      exact hmix ⟨hcon.2.2, hcon.2.1⟩
    have hnota : ¬ (a.isCrudOpType = true ∧ env.supportsDocLocking = true ∧
        (env.catalog b.nss).isCapped = false) := by
      intro hcon
      exact hmix ⟨hcon.2.2, hcon.2.1⟩
    rw [if_neg hnota, if_neg hnot]

/-- Every member of a list of writer vectors is `getD` at some index. -/
theorem mem_wv_getD (wv : List (List OpRef)) (v : List OpRef) (h : v ∈ wv) :
    ∃ w, w < wv.length ∧ wv.getD w [] = v := by
  obtain ⟨w, hw, hval⟩ := List.getElem_of_mem h
  exact ⟨w, hw, by
    simp [List.getD_eq_getElem?_getD, List.getElem?_eq_getElem hw, hval]⟩

theorem forall₂_map_self {α : Type} {r : α → α → Prop} (f : α → α)
    (h : ∀ a, r a (f a)) : ∀ l : List α, List.Forall₂ r l (l.map f) := by
  intro l
  induction l with
  | nil => simp
  | cons a t ih => exact List.Forall₂.cons (h a) ih

theorem sameExceptCapped_stepOutOp {σ : Type} (env : FillEnv σ)
    (op : OplogEntry) : sameExceptCapped op (stepOutOp env op) := by
  unfold stepOutOp sameExceptCapped
  split
  · exact Or.inl rfl
  · split
    · exact Or.inl rfl
    · split
      · exact Or.inr rfl
      · exact Or.inl rfl

/-! ### C10: frame property of the partitioning pass -/

/-- C10.  Frame property: `fillWriterVectors` mutates each input op only
through the `isForCappedCollection` field — every returned op equals its
input op or its input op with that flag set — and no op is removed from
the batch (same length, related pointwise in order). -/
theorem fillWriterVectors_frame {σ : Type} (env : FillEnv σ)
    (ops : List OplogEntry) (numWriters : Nat) :
    List.Forall₂ sameExceptCapped ops (fillWriterVectors env ops numWriters).ops ∧
    (fillWriterVectors env ops numWriters).ops.length = ops.length := by
  obtain ⟨h1, _, _, _, _⟩ := fillWriterVectors_master env ops numWriters
  rw [h1]
  exact ⟨forall₂_map_self _ (sameExceptCapped_stepOutOp env) ops,
    List.length_map ops _⟩

/-! ### C8: capped-insert marking -/

/-- C8.  Capped-insert marking: an insert op of the batch that
`fillWriterVectors` routes into a writer vector and whose target
collection is capped (per the per-pass property cache, which agrees with
the catalog) comes out with `isForCappedCollection = true`, and its worker
index is determined by the namespace hash alone; moreover `processCrudOp`
never mixes the `_id` hash into the routing hash for any
capped-collection CRUD op. -/
theorem fillWriterVectors_capped_insert {σ : Type} (env : FillEnv σ)
    (ops : List OplogEntry) (numWriters : Nat) (i : Nat) (op : OplogEntry)
    (w : Nat) (hop : ops[i]? = some op) (hins : op.opType = OpType.insert)
    (hcap : (env.catalog op.nss).isCapped = true)
    (hmem : OpRef.input i ∈ (fillWriterVectors env ops numWriters).wv.getD w []) :
    ((fillWriterVectors env ops numWriters).ops[i]? =
      some { op with isForCappedCollection := true }) ∧
    w = (env.hashNs op.nss % 4294967296) % numWriters ∧
    (∀ (op' : OplogEntry) (hash : Nat)
        (cache : List (String × CollectionProperties)), CacheGood env cache →
      (env.catalog op'.nss).isCapped = true →
      (processCrudOp env op' hash cache).2.1 = hash) := by
  obtain ⟨m1, _, m3, _, _⟩ := fillWriterVectors_master env ops numWriters
  obtain ⟨op₀, hop₀, hr₀, hw₀⟩ := m3 w (OpRef.input i) hmem i rfl
  rw [hop] at hop₀
  cases hop₀
  refine ⟨?_, ?_, ?_⟩
  · rw [m1, List.getElem?_map, hop]
    rw [Option.map_some']
    rw [stepOutOp_eq_of_routed env op hr₀, if_pos ⟨hins, hcap⟩]
  · rw [hw₀, routeHash_capped env op hcap]
  · intro op' hash cache hcache hcap'
    rw [processCrudOp_hash env op' hash cache hcache]
    rw [if_neg (fun hcon => by rw [hcap'] at hcon; exact Bool.noConfusion hcon.2)]

/-- Witness for C8: one insert into the capped collection, one writer. -/
theorem fillWriterVectors_capped_insert_witness :
    ((fillWriterVectors cEnv [cappedInsertOp] 1).ops[0]? =
      some { cappedInsertOp with isForCappedCollection := true }) ∧
    0 = (cEnv.hashNs cappedInsertOp.nss % 4294967296) % 1 ∧
    (∀ (op' : OplogEntry) (hash : Nat)
        (cache : List (String × CollectionProperties)), CacheGood cEnv cache →
      (cEnv.catalog op'.nss).isCapped = true →
      (processCrudOp cEnv op' hash cache).2.1 = hash) :=
  fillWriterVectors_capped_insert cEnv [cappedInsertOp] 1 0 cappedInsertOp 0
    (by decide) (by decide) (by decide) (by decide)

/-! ### C1: same-document serialization -/

/-- C1 (amended).  For CRUD ops `a` (position `i`) and `b` (position `j`)
of one batch with the same namespace and the same `_id` element (or merely
the same namespace when the collection is capped or the engine lacks
doc locking), with `a` preceding `b`: either both handles land in the same
writer vector with every occurrence of `a` before every occurrence of `b`,
or `b` is absent from all vectors, or `a` is absent from all vectors (for
example when `a` is filtered by the begin-applying floor while `b` is
not). -/
theorem fillWriterVectors_same_doc {σ : Type} (env : FillEnv σ)
    (ops : List OplogEntry) (numWriters : Nat) (i j : Nat) (a b : OplogEntry)
    (hW : 0 < numWriters) (hij : i < j)
    (ha : ops[i]? = some a) (hb : ops[j]? = some b)
    (hca : a.isCrudOpType = true) (hcb : b.isCrudOpType = true)
    (hns : a.nss = b.nss)
    (hdoc : a.idElem = b.idElem ∨ (env.catalog a.nss).isCapped = true ∨
      env.supportsDocLocking = false) :
    (∃ w, w < numWriters ∧
      OpRef.input i ∈ (fillWriterVectors env ops numWriters).wv.getD w [] ∧
      OpRef.input j ∈ (fillWriterVectors env ops numWriters).wv.getD w [] ∧
      OccursBefore (OpRef.input i) (OpRef.input j)
        ((fillWriterVectors env ops numWriters).wv.getD w [])) ∨
    (∀ v ∈ (fillWriterVectors env ops numWriters).wv, OpRef.input j ∉ v) ∨
    (∀ v ∈ (fillWriterVectors env ops numWriters).wv, OpRef.input i ∉ v) := by
  obtain ⟨_, _, m3, m4, m5⟩ := fillWriterVectors_master env ops numWriters
  by_cases hrb : routesTo env b = none
  · refine Or.inr (Or.inl ?_)
    intro v hv hmem
    obtain ⟨w, _, hgd⟩ := mem_wv_getD _ v hv
    rw [← hgd] at hmem
    obtain ⟨op₀, hop₀, hr₀, _⟩ := m3 w (OpRef.input j) hmem j rfl
    rw [hb] at hop₀
    cases hop₀
    exact hr₀ hrb
  · by_cases hra : routesTo env a = none
    · refine Or.inr (Or.inr ?_)
      intro v hv hmem
      obtain ⟨w, _, hgd⟩ := mem_wv_getD _ v hv
      rw [← hgd] at hmem
      obtain ⟨op₀, hop₀, hr₀, _⟩ := m3 w (OpRef.input i) hmem i rfl
      rw [ha] at hop₀
      cases hop₀
      exact hr₀ hra
    · refine Or.inl ?_
      have hhash : routeHash env a = routeHash env b :=
        routeHash_same_doc env a b hca hcb hns hdoc
      refine ⟨routeHash env a % numWriters, Nat.mod_lt _ hW, ?_, ?_, ?_⟩
      · exact m4 i a ha hra hW
      · have hmb := m4 j b hb hrb hW
        rw [← hhash] at hmb
        exact hmb
      · have hmono := m5 (routeHash env a % numWriters)
        intro p hp q hq hgp hgq
        by_contra hpq
        push_neg at hpq
        have := hmono q hq p hp hpq j i hgq hgp
        omega

/-- Counterexample to C1 as literally stated: with `a` at or below the
begin-applying floor and `b` above it — same namespace, same `_id`,
doc-locking engine, non-capped collection — `b` is routed while `a` is
absent, so neither "both in one vector with `a` first" nor "`b` absent"
holds. -/
theorem fillWriterVectors_same_doc_counterexample :
    ¬ ((∃ w, w < 1 ∧
        OpRef.input 0 ∈ (fillWriterVectors cEnv [c1OpA, c1OpB] 1).wv.getD w [] ∧
        OpRef.input 1 ∈ (fillWriterVectors cEnv [c1OpA, c1OpB] 1).wv.getD w [] ∧
        OccursBefore (OpRef.input 0) (OpRef.input 1)
          ((fillWriterVectors cEnv [c1OpA, c1OpB] 1).wv.getD w [])) ∨
      (∀ v ∈ (fillWriterVectors cEnv [c1OpA, c1OpB] 1).wv,
        OpRef.input 1 ∉ v)) := by
  decide

/-- Witness for C1 (amended): two same-document inserts above the floor. -/
theorem fillWriterVectors_same_doc_witness :
    (∃ w, w < 2 ∧
      OpRef.input 0 ∈ (fillWriterVectors cEnv [c1OpC, c1OpD] 2).wv.getD w [] ∧
      OpRef.input 1 ∈ (fillWriterVectors cEnv [c1OpC, c1OpD] 2).wv.getD w [] ∧
      OccursBefore (OpRef.input 0) (OpRef.input 1)
        ((fillWriterVectors cEnv [c1OpC, c1OpD] 2).wv.getD w [])) ∨
    (∀ v ∈ (fillWriterVectors cEnv [c1OpC, c1OpD] 2).wv, OpRef.input 1 ∉ v) ∨
    (∀ v ∈ (fillWriterVectors cEnv [c1OpC, c1OpD] 2).wv, OpRef.input 0 ∉ v) :=
  fillWriterVectors_same_doc cEnv [c1OpC, c1OpD] 2 0 1 c1OpC c1OpD
    (by decide) (by decide) (by decide) (by decide) (by decide) (by decide)
    (by decide) (by decide)

/-! ### C5: floor filter -/

/-- Processing a batch leaves exactly the same state as processing only its
above-floor pairs: ops at or below `beginApplyingOpTime` contribute no
writer-vector, derived-op, partial-transaction-buffer, cache or tracker
effects. -/
theorem deriveOpsLoop_filter_state {σ : Type} (env : FillEnv σ) (u : Bool)
    (tag : Nat → OpRef) :
    ∀ (pairs : List (Nat × OplogEntry)) (st : LoopState σ),
      (deriveOpsLoop env u tag pairs st).2 =
        (deriveOpsLoop env u tag
          (pairs.filter
            (fun pr => !(decide (opTimeLE pr.2.opTime env.beginApplyingOpTime))))
          st).2 := by
  intro pairs
  induction pairs with
  | nil => intro st; rfl
  | cons pr rest ih =>
    obtain ⟨i, op⟩ := pr
    intro st
    by_cases h : opTimeLE op.opTime env.beginApplyingOpTime
    · have hskip : deriveOneOp env u tag i op st = (op, st) := by
        unfold deriveOneOp; rw [if_pos h]
      have hfil : ((i, op) :: rest).filter
          (fun pr => !(decide (opTimeLE pr.2.opTime env.beginApplyingOpTime))) =
          rest.filter
            (fun pr => !(decide (opTimeLE pr.2.opTime env.beginApplyingOpTime))) := by
        simp [List.filter_cons, h]
      rw [hfil]
      have hunf : (deriveOpsLoop env u tag ((i, op) :: rest) st).2 =
          (deriveOpsLoop env u tag rest (deriveOneOp env u tag i op st).2).2 := rfl
      rw [hunf, hskip]
      exact ih st
    · have hfil : ((i, op) :: rest).filter
          (fun pr => !(decide (opTimeLE pr.2.opTime env.beginApplyingOpTime))) =
          (i, op) :: rest.filter
            (fun pr => !(decide (opTimeLE pr.2.opTime env.beginApplyingOpTime))) := by
        simp [List.filter_cons, h]
      rw [hfil]
      have hunfL : (deriveOpsLoop env u tag ((i, op) :: rest) st).2 =
          (deriveOpsLoop env u tag rest (deriveOneOp env u tag i op st).2).2 := rfl
      have hunfR : (deriveOpsLoop env u tag ((i, op) ::
          rest.filter
            (fun pr => !(decide (opTimeLE pr.2.opTime env.beginApplyingOpTime))))
            st).2 =
          (deriveOpsLoop env u tag
            (rest.filter
              (fun pr => !(decide (opTimeLE pr.2.opTime env.beginApplyingOpTime))))
            (deriveOneOp env u tag i op st).2).2 := rfl
      rw [hunfL, hunfR]
      exact ih _

/-- The writer vectors, derived pools and exposed partial-transaction map of
`secondPass` depend only on the tracked pass's final state, not on the
batch pairs (which only determine the returned ops). -/
theorem secondPass_indep {σ : Type} (env : FillEnv σ) (st1 : LoopState σ)
    (x y : List (Nat × OplogEntry)) :
    (secondPass env st1 x).wv = (secondPass env st1 y).wv ∧
    (secondPass env st1 x).derived = (secondPass env st1 y).derived ∧
    (secondPass env st1 x).partialTxn = (secondPass env st1 y).partialTxn := by
  unfold secondPass
  by_cases h : (env.flushAll st1.tr).isEmpty = true
  · rw [if_pos h, if_pos h]
    exact ⟨rfl, rfl, rfl⟩
  · rw [if_neg h, if_neg h]
    exact ⟨rfl, rfl, rfl⟩

/-- C5.  Floor filter: `fillWriterVectors` produces exactly the writer
vectors, derived pools and partial-transaction buffers of the run on the
batch with all ops at or below `beginApplyingOpTime` removed (so those ops
contribute no session-tracker or transaction-buffer effects and every op
above the floor is processed as if the filtered ops were not there); each
filtered op is returned unmutated and its handle appears in no writer
vector. -/
theorem fillWriterVectors_floor {σ : Type} (env : FillEnv σ)
    (ops : List OplogEntry) (numWriters : Nat) :
    ((fillWriterVectors env ops numWriters).wv =
      (fillWriterVectorsFromPairs env
        (ops.enum.filter
          (fun pr => !(decide (opTimeLE pr.2.opTime env.beginApplyingOpTime))))
        numWriters).wv ∧
     (fillWriterVectors env ops numWriters).derived =
      (fillWriterVectorsFromPairs env
        (ops.enum.filter
          (fun pr => !(decide (opTimeLE pr.2.opTime env.beginApplyingOpTime))))
        numWriters).derived ∧
     (fillWriterVectors env ops numWriters).partialTxn =
      (fillWriterVectorsFromPairs env
        (ops.enum.filter
          (fun pr => !(decide (opTimeLE pr.2.opTime env.beginApplyingOpTime))))
        numWriters).partialTxn) ∧
    (∀ i op, ops[i]? = some op →
      opTimeLE op.opTime env.beginApplyingOpTime →
      (fillWriterVectors env ops numWriters).ops[i]? = some op ∧
      ∀ v ∈ (fillWriterVectors env ops numWriters).wv, OpRef.input i ∉ v) := by
  constructor
  · have hstate :=
      deriveOpsLoop_filter_state env true OpRef.input ops.enum
        ⟨List.replicate numWriters [], [], fun _ => [], [], env.initTracker⟩
    have hL : fillWriterVectors env ops numWriters =
        secondPass env
          (deriveOpsLoop env true OpRef.input ops.enum
            ⟨List.replicate numWriters [], [], fun _ => [],
              [], env.initTracker⟩).2
          (deriveOpsLoop env true OpRef.input ops.enum
            ⟨List.replicate numWriters [], [], fun _ => [],
              [], env.initTracker⟩).1 := rfl
    have hR : fillWriterVectorsFromPairs env
        (ops.enum.filter
          (fun pr => !(decide (opTimeLE pr.2.opTime env.beginApplyingOpTime))))
        numWriters =
        secondPass env
          (deriveOpsLoop env true OpRef.input
            (ops.enum.filter
              (fun pr => !(decide (opTimeLE pr.2.opTime env.beginApplyingOpTime))))
            ⟨List.replicate numWriters [], [], fun _ => [],
              [], env.initTracker⟩).2
          (deriveOpsLoop env true OpRef.input
            (ops.enum.filter
              (fun pr => !(decide (opTimeLE pr.2.opTime env.beginApplyingOpTime))))
            ⟨List.replicate numWriters [], [], fun _ => [],
              [], env.initTracker⟩).1 := rfl
    rw [hL, hR, hstate]
    exact secondPass_indep env _ _ _
  · intro i op hop hfloor
    obtain ⟨m1, _, m3, _, _⟩ := fillWriterVectors_master env ops numWriters
    constructor
    · rw [m1, List.getElem?_map, hop, Option.map_some',
        stepOutOp_skip env op hfloor]
    · intro v hv hmem
      obtain ⟨w, _, hgd⟩ := mem_wv_getD _ v hv
      rw [← hgd] at hmem
      obtain ⟨op₀, hop₀, hr₀, _⟩ := m3 w (OpRef.input i) hmem i rfl
      rw [hop] at hop₀
      cases hop₀
      exact hr₀ (routesTo_none_of_floor env op hfloor)

/-- Witness for C5: the below-floor op of `[c1OpA, c1OpB]` is returned
unchanged and appears in no writer vector. -/
theorem fillWriterVectors_floor_witness :
    (fillWriterVectors cEnv [c1OpA, c1OpB] 1).ops[0]? = some c1OpA ∧
    ∀ v ∈ (fillWriterVectors cEnv [c1OpA, c1OpB] 1).wv, OpRef.input 0 ∉ v :=
  (fillWriterVectors_floor cEnv [c1OpA, c1OpB] 1).2 0 c1OpA (by decide)
    (by decide)

/-! ### Transaction-scenario lemmas (C3, C4) -/

theorem updFn_read (f : Nat → List OplogEntry) (k : Nat) (v : List OplogEntry) :
    updFn f k v k = v := by
  unfold updFn; rw [if_pos rfl]

theorem updFn_override (f : Nat → List OplogEntry) (k : Nat)
    (a b : List OplogEntry) : updFn (updFn f k a) k b = updFn f k b := by
  funext x; unfold updFn
  by_cases h : x = k <;> simp [h]

theorem updFn_self (f : Nat → List OplogEntry) (k : Nat) :
    updFn f k (f k) = f := by
  funext x; unfold updFn
  by_cases h : x = k
  · rw [if_pos h, h]
  · rw [if_neg h]

/-- With a session update tracker that never emits synthetic ops, the
tracker step is the identity on the loop state. -/
theorem trackerStep_silent {σ : Type} (env : FillEnv σ) (u : Bool)
    (op : OplogEntry) (st : LoopState σ)
    (htr : ∀ t op', env.updateSession t op' = (t, none)) :
    trackerStep env u op st = st := by
  cases u with
  | false => rfl
  | true => simp [trackerStep, htr]

/-- The loop distributes over batch concatenation. -/
theorem deriveOpsLoop_append {σ : Type} (env : FillEnv σ) (u : Bool)
    (tag : Nat → OpRef) :
    ∀ (A B : List (Nat × OplogEntry)) (st : LoopState σ),
      deriveOpsLoop env u tag (A ++ B) st =
        ((deriveOpsLoop env u tag A st).1 ++
          (deriveOpsLoop env u tag B (deriveOpsLoop env u tag A st).2).1,
         (deriveOpsLoop env u tag B (deriveOpsLoop env u tag A st).2).2) := by
  intro A
  induction A with
  | nil => intro B st; rfl
  | cons pr rest ih =>
    obtain ⟨i, op⟩ := pr
    intro B st
    have h1 : deriveOpsLoop env u tag (((i, op) :: rest) ++ B) st =
        ((i, (deriveOneOp env u tag i op st).1) ::
          (deriveOpsLoop env u tag (rest ++ B)
            (deriveOneOp env u tag i op st).2).1,
         (deriveOpsLoop env u tag (rest ++ B)
            (deriveOneOp env u tag i op st).2).2) := rfl
    have h2 : deriveOpsLoop env u tag ((i, op) :: rest) st =
        ((i, (deriveOneOp env u tag i op st).1) ::
          (deriveOpsLoop env u tag rest (deriveOneOp env u tag i op st).2).1,
         (deriveOpsLoop env u tag rest (deriveOneOp env u tag i op st).2).2) := rfl
    rw [h1, ih B (deriveOneOp env u tag i op st).2, h2]
    rfl

/-- Processing a run of above-floor partial-transaction entries of session
`s` (with a silent tracker) only appends their op values to the session's
partial-transaction buffer. -/
theorem deriveOpsLoop_buffer {σ : Type} (env : FillEnv σ) (u : Bool)
    (tag : Nat → OpRef) (s : Nat)
    (htr : ∀ t op', env.updateSession t op' = (t, none)) :
    ∀ (pairs : List (Nat × OplogEntry)) (st : LoopState σ),
      (∀ pr ∈ pairs, ¬ opTimeLE (pr.2 : OplogEntry).opTime env.beginApplyingOpTime ∧
        ((pr.2 : OplogEntry).isPartialTransaction ||
          ((pr.2 : OplogEntry).shouldPrepare && env.mode = Mode.initialSync)) = true ∧
        (pr.2 : OplogEntry).sessionId = some s) →
      (deriveOpsLoop env u tag pairs st).1 = pairs ∧
      (deriveOpsLoop env u tag pairs st).2 =
        { st with partialTxn := (updFn st.partialTxn s
            (st.partialTxn s ++ pairs.map Prod.snd)) } := by
  intro pairs
  induction pairs with
  | nil =>
    intro st _
    refine ⟨rfl, ?_⟩
    have hupd : updFn st.partialTxn s
        (st.partialTxn s ++ List.map Prod.snd ([] : List (Nat × OplogEntry))) =
        st.partialTxn := by
      rw [List.map_nil, List.append_nil]
      exact updFn_self st.partialTxn s
    rw [hupd]
    rfl
  | cons pr rest ih =>
    obtain ⟨i, op⟩ := pr
    intro st hall
    obtain ⟨hfloor, hpart, hsid⟩ := hall (i, op) (List.mem_cons_self _ _)
    have hstep : deriveOneOp env u tag i op st =
        (op, { st with partialTxn := (updFn st.partialTxn s
            (st.partialTxn s ++ [op])) }) := by
      unfold deriveOneOp
      rw [if_neg hfloor, trackerStep_silent env u op st htr]
      unfold deriveOneOpCore
      rw [if_pos hpart, hsid]
      rfl
    have hunf : deriveOpsLoop env u tag ((i, op) :: rest) st =
        ((i, (deriveOneOp env u tag i op st).1) ::
          (deriveOpsLoop env u tag rest (deriveOneOp env u tag i op st).2).1,
         (deriveOpsLoop env u tag rest (deriveOneOp env u tag i op st).2).2) := rfl
    obtain ⟨ih1, ih2⟩ :=
      ih ({ st with partialTxn := (updFn st.partialTxn s
            (st.partialTxn s ++ [op])) })
        (fun pr hpr => hall pr (List.mem_cons_of_mem _ hpr))
    rw [hunf, hstep]
    constructor
    · simp only [ih1]
    · rw [ih2]
      show ({ st with partialTxn := (updFn (updFn st.partialTxn s
          (st.partialTxn s ++ [op])) s
          ((updFn st.partialTxn s (st.partialTxn s ++ [op])) s ++
            rest.map Prod.snd)) } : LoopState σ) = _
      rw [updFn_read, updFn_override, List.append_assoc, List.map_cons]
      rfl

/-- One loop iteration on a commit entry — a terminal applyOps with session
and txn number set, or (for the second disjunct of `hkind`) a prepared
commit in initial-sync mode — with a silent tracker: it materializes the
ops read from the oplog chain together with the session's buffered partial
ops as a new derived pool and clears the buffer; the entry itself is not
appended to any writer vector. -/
theorem deriveOneOp_txn_commit {σ : Type} (env : FillEnv σ) (u : Bool)
    (tag : Nat → OpRef) (i : Nat) (s n : Nat) (op : OplogEntry)
    (st : LoopState σ)
    (htr : ∀ t op', env.updateSession t op' = (t, none))
    (hfloor : ¬ opTimeLE op.opTime env.beginApplyingOpTime)
    (hpart : (op.isPartialTransaction ||
      (op.shouldPrepare && env.mode = Mode.initialSync)) = false)
    (hcmd : op.opType = OpType.command)
    (hab : ¬ op.commandType = CommandType.abortTransaction)
    (hsid : op.sessionId = some s) (htxn : op.txnNumber = some n)
    (hkind : op.isTerminalApplyOps = true ∨
      (op.isTerminalApplyOps = false ∧
        (op.isPreparedCommit && env.mode = Mode.initialSync) = true)) :
    deriveOneOp env u tag i op st =
      (op, emplacePool env (env.readTxnOps op (st.partialTxn s))
        { st with partialTxn := (updFn st.partialTxn s []) }) := by
  have hcrudf : op.isCrudOpType = false := by
    unfold OplogEntry.isCrudOpType
    rw [hcmd]
  unfold deriveOneOp
  rw [if_neg hfloor, trackerStep_silent env u op st htr]
  unfold deriveOneOpCore
  rw [if_neg (by rw [hpart]; exact Bool.false_ne_true), if_neg hab]
  unfold routeOrDerive
  rcases hkind with hterm | ⟨hterm, hprep⟩
  · simp only [hcrudf, Bool.false_eq_true, if_false, hterm, if_true, hsid, htxn,
      Option.isSome_some, Bool.and_self, Option.getD_some]
  · simp only [hcrudf, Bool.false_eq_true, if_false, hterm, hprep, if_true, hsid,
      Option.getD_some]

/-- One loop iteration on an `abortTransaction` command entry with a silent
tracker: it clears the session's partial-transaction buffer — and then
falls through to normal routing, appending the abort entry itself to
writer `hash(ns) % numWriters`. -/
theorem deriveOneOp_abort {σ : Type} (env : FillEnv σ) (u : Bool)
    (tag : Nat → OpRef) (i : Nat) (s : Nat) (op : OplogEntry)
    (st : LoopState σ)
    (htr : ∀ t op', env.updateSession t op' = (t, none))
    (hfloor : ¬ opTimeLE op.opTime env.beginApplyingOpTime)
    (hpart : (op.isPartialTransaction ||
      (op.shouldPrepare && env.mode = Mode.initialSync)) = false)
    (hcmd : op.opType = OpType.command)
    (hab : op.commandType = CommandType.abortTransaction)
    (hsid : op.sessionId = some s)
    (hterm : op.isTerminalApplyOps = false)
    (hprep : (op.isPreparedCommit && env.mode = Mode.initialSync) = false) :
    deriveOneOp env u tag i op st =
      (op, { st with partialTxn := (updFn st.partialTxn s []),
                     wv := addToWriterVector (tag i)
                       (env.hashNs op.nss % 4294967296) st.wv }) := by
  have hcrudf : op.isCrudOpType = false := by
    unfold OplogEntry.isCrudOpType
    rw [hcmd]
  unfold deriveOneOp
  rw [if_neg hfloor, trackerStep_silent env u op st htr]
  unfold deriveOneOpCore
  rw [if_neg (by rw [hpart]; exact Bool.false_ne_true), if_pos hab, hsid]
  unfold routeOrDerive
  simp only [hcrudf, Bool.false_eq_true, if_false, hterm, hprep,
    Option.getD_some]

/-- With a tracker whose flush is empty, `secondPass` only packages the
tracked pass's results. -/
theorem secondPass_noflush {σ : Type} (env : FillEnv σ) (st1 : LoopState σ)
    (x : List (Nat × OplogEntry)) (h : env.flushAll st1.tr = []) :
    secondPass env st1 x =
      ⟨x.map Prod.snd, st1.wv, st1.derived, st1.partialTxn, st1.tr⟩ := by
  unfold secondPass
  rw [if_pos (by rw [h]; rfl)]

/-! ### C3: transaction materialization at the commit entry -/

/-- C3.  Transaction atomicity of materialization: for a batch consisting of
a session's partial-transaction entries followed by the transaction's
commit entry — a terminal applyOps with session id and txn number set, or
(second disjunct of `hkindT`) a prepared commit in initial-sync mode —
`fillWriterVectors` emits exactly one derived pool, holding exactly the
ops `readTransactionOperationsFromOplogChain` returns for the terminal
entry and the buffered partial list (in that order, up to the
capped-collection marking of routing); the session's partial buffer is
empty afterward; no input-batch handle (in particular not the terminal
entry's) is routed into any writer vector; and every materialized op's
handle is routed into some writer vector. -/
theorem fillWriterVectors_txn_materialize {σ : Type} (env : FillEnv σ)
    (numWriters : Nat) (s n : Nat) (partials : List OplogEntry)
    (terminal : OplogEntry)
    (htr : ∀ t op', env.updateSession t op' = (t, none))
    (hfl : ∀ t, env.flushAll t = [])
    (hparts : ∀ op ∈ partials,
      ¬ opTimeLE op.opTime env.beginApplyingOpTime ∧
      (op.isPartialTransaction ||
        (op.shouldPrepare && env.mode = Mode.initialSync)) = true ∧
      op.sessionId = some s)
    (hfloorT : ¬ opTimeLE terminal.opTime env.beginApplyingOpTime)
    (hpartT : (terminal.isPartialTransaction ||
      (terminal.shouldPrepare && env.mode = Mode.initialSync)) = false)
    (hcmdT : terminal.opType = OpType.command)
    (habT : ¬ terminal.commandType = CommandType.abortTransaction)
    (hsidT : terminal.sessionId = some s) (htxnT : terminal.txnNumber = some n)
    (hkindT : terminal.isTerminalApplyOps = true ∨
      (terminal.isTerminalApplyOps = false ∧
        (terminal.isPreparedCommit && env.mode = Mode.initialSync) = true)) :
    (∃ pool,
      (fillWriterVectors env (partials ++ [terminal]) numWriters).derived =
        [pool] ∧
      List.Forall₂ sameExceptCapped (env.readTxnOps terminal partials) pool) ∧
    (fillWriterVectors env (partials ++ [terminal]) numWriters).partialTxn s
      = [] ∧
    (∀ v ∈ (fillWriterVectors env (partials ++ [terminal]) numWriters).wv,
      ∀ k, OpRef.input k ∉ v) ∧
    (0 < numWriters → ∀ k, k < (env.readTxnOps terminal partials).length →
      ∃ w, OpRef.derived 0 k ∈
        (fillWriterVectors env (partials ++ [terminal]) numWriters).wv.getD
          w []) := by
  have hc0 : CacheGood env ([] : List (String × CollectionProperties)) := by
    intro pr hpr; simp at hpr
  -- the tracked pass on the enumerated batch splits at the terminal entry
  have henum : (partials ++ [terminal]).enum =
      partials.enum ++ [(partials.length, terminal)] := by
    rw [List.enum_append]
    rfl
  have hbparts : ∀ pr ∈ partials.enum,
      ¬ opTimeLE (pr.2 : OplogEntry).opTime env.beginApplyingOpTime ∧
      ((pr.2 : OplogEntry).isPartialTransaction ||
        ((pr.2 : OplogEntry).shouldPrepare && env.mode = Mode.initialSync)) = true ∧
      (pr.2 : OplogEntry).sessionId = some s := by
    intro pr hpr
    refine hparts pr.2 ?_
    obtain ⟨i, op⟩ := pr
    exact List.getElem?_mem (List.mk_mem_enum_iff_getElem?.mp hpr)
  obtain ⟨_, hb2⟩ :=
    deriveOpsLoop_buffer env true OpRef.input s htr partials.enum
      ⟨List.replicate numWriters [], [], fun _ => [], [], env.initTracker⟩
      hbparts
  have hb2' : (deriveOpsLoop env true OpRef.input partials.enum
      ⟨List.replicate numWriters [], [], fun _ => [], [], env.initTracker⟩).2 =
      ({ wv := List.replicate numWriters [], derived := [],
         partialTxn := (updFn (fun _ => []) s partials), cache := [],
         tr := env.initTracker } : LoopState σ) := by
    rw [hb2, List.enum_map_snd]
    rfl
  have hterm_step :=
    deriveOneOp_txn_commit env true OpRef.input partials.length s n terminal
      ({ wv := List.replicate numWriters [], derived := [],
         partialTxn := (updFn (fun _ => []) s partials), cache := [],
         tr := env.initTracker } : LoopState σ)
      htr hfloorT hpartT hcmdT habT hsidT htxnT hkindT
  have hread :
      ({ wv := List.replicate numWriters [], derived := [],
         partialTxn := (updFn (fun _ => []) s partials), cache := [],
         tr := env.initTracker } : LoopState σ).partialTxn s = partials :=
    updFn_read (fun _ => ([] : List OplogEntry)) s partials
  rw [hread] at hterm_step
  have hsplit := deriveOpsLoop_append env true OpRef.input partials.enum
    [(partials.length, terminal)]
    ⟨List.replicate numWriters [], [], fun _ => [], [], env.initTracker⟩
  have hone : ∀ st : LoopState σ,
      (deriveOpsLoop env true OpRef.input [(partials.length, terminal)] st).2 =
        (deriveOneOp env true OpRef.input partials.length terminal st).2 :=
    fun st => rfl
  have hstF : (deriveOpsLoop env true OpRef.input
      (partials ++ [terminal]).enum
      ⟨List.replicate numWriters [], [], fun _ => [], [], env.initTracker⟩).2 =
      emplacePool env (env.readTxnOps terminal partials)
        ({ wv := List.replicate numWriters [], derived := [],
           partialTxn := (updFn (updFn (fun _ => []) s partials) s []),
           cache := [], tr := env.initTracker } : LoopState σ) := by
    rw [henum]
    rw [hsplit]
    rw [hone]
    rw [hb2']
    rw [hterm_step]
  -- package the result
  have hres : fillWriterVectors env (partials ++ [terminal]) numWriters =
      secondPass env
        (deriveOpsLoop env true OpRef.input (partials ++ [terminal]).enum
          ⟨List.replicate numWriters [], [], fun _ => [],
            [], env.initTracker⟩).2
        (deriveOpsLoop env true OpRef.input (partials ++ [terminal]).enum
          ⟨List.replicate numWriters [], [], fun _ => [],
            [], env.initTracker⟩).1 := rfl
  have hnof := secondPass_noflush env
    (deriveOpsLoop env true OpRef.input (partials ++ [terminal]).enum
      ⟨List.replicate numWriters [], [], fun _ => [], [], env.initTracker⟩).2
    (deriveOpsLoop env true OpRef.input (partials ++ [terminal]).enum
      ⟨List.replicate numWriters [], [], fun _ => [], [], env.initTracker⟩).1
    (hfl _)
  obtain ⟨ad1, ad2, ad3, ad4, ad5⟩ :=
    addDerivedOps_spec env 0 (env.readTxnOps terminal partials) 0
      (List.replicate numWriters []) [] hc0
  refine ⟨?_, ?_, ?_, ?_⟩
  · refine ⟨(addDerivedOps env 0 0 (env.readTxnOps terminal partials)
      (List.replicate numWriters []) []).1, ?_, ad4⟩
    rw [hres, hnof]
    show (deriveOpsLoop env true OpRef.input (partials ++ [terminal]).enum
      ⟨List.replicate numWriters [], [], fun _ => [],
        [], env.initTracker⟩).2.derived = _
    rw [hstF]
    rfl
  · rw [hres, hnof]
    show (deriveOpsLoop env true OpRef.input (partials ++ [terminal]).enum
      ⟨List.replicate numWriters [], [], fun _ => [],
        [], env.initTracker⟩).2.partialTxn s = _
    rw [hstF]
    show updFn (updFn (fun _ => []) s partials) s [] s = _
    rw [updFn_read]
  · -- no input-batch handle is routed
    obtain ⟨_, _, m3, _, _⟩ :=
      fillWriterVectors_master env (partials ++ [terminal]) numWriters
    intro v hv k hmem
    obtain ⟨w, _, hgd⟩ := mem_wv_getD _ v hv
    rw [← hgd] at hmem
    obtain ⟨op₀, hop₀, hr₀, _⟩ := m3 w (OpRef.input k) hmem k rfl
    rcases Nat.lt_or_ge k partials.length with hk | hk
    · rw [List.getElem?_append_left hk] at hop₀
      obtain ⟨hf, hp, _⟩ := hparts op₀ (List.getElem?_mem hop₀)
      exact hr₀ (routesTo_none_of_buffered env op₀ hf hp)
    · rw [List.getElem?_append_right hk] at hop₀
      have hroutesT : routesTo env terminal = none := by
        unfold routesTo
        rw [if_neg hfloorT, if_neg (by rw [hpartT]; exact Bool.false_ne_true)]
        rcases hkindT with hterm | ⟨hterm, hprep⟩
        · rw [if_pos hterm]
        · rw [if_neg (by rw [hterm]; exact Bool.false_ne_true), if_pos hprep]
      rcases hkl : k - partials.length with _ | m
      · rw [hkl] at hop₀
        simp only [List.getElem?_cons_zero] at hop₀
        cases hop₀
        exact hr₀ hroutesT
      · rw [hkl] at hop₀
        simp at hop₀
  · -- every materialized op handle is routed
    intro hpos k hk
    obtain ⟨w, hw⟩ := ad5 k hk (by rw [List.length_replicate]; exact hpos)
    refine ⟨w, ?_⟩
    rw [hres, hnof]
    show OpRef.derived 0 k ∈
      (deriveOpsLoop env true OpRef.input (partials ++ [terminal]).enum
        ⟨List.replicate numWriters [], [], fun _ => [],
          [], env.initTracker⟩).2.wv.getD w []
    rw [hstF]
    show OpRef.derived 0 k ∈
      (addDerivedOps env 0 0 (env.readTxnOps terminal partials)
        (List.replicate numWriters []) []).2.1.getD w []
    simpa using hw

/-- Witness for C3: one partial entry and a terminal applyOps for session 5
in `cEnv`. -/
theorem fillWriterVectors_txn_materialize_witness :
    (∃ pool,
      (fillWriterVectors cEnv ([partialTxnOp] ++ [commitTxnOp]) 1).derived =
        [pool] ∧
      List.Forall₂ sameExceptCapped
        (cEnv.readTxnOps commitTxnOp [partialTxnOp]) pool) ∧
    (fillWriterVectors cEnv ([partialTxnOp] ++ [commitTxnOp]) 1).partialTxn 5
      = [] ∧
    (∀ v ∈ (fillWriterVectors cEnv ([partialTxnOp] ++ [commitTxnOp]) 1).wv,
      ∀ k, OpRef.input k ∉ v) ∧
    (0 < 1 → ∀ k, k < (cEnv.readTxnOps commitTxnOp [partialTxnOp]).length →
      ∃ w, OpRef.derived 0 k ∈
        (fillWriterVectors cEnv ([partialTxnOp] ++ [commitTxnOp]) 1).wv.getD
          w []) :=
  fillWriterVectors_txn_materialize cEnv 1 5 7 [partialTxnOp] commitTxnOp
    (fun _ _ => rfl) (fun _ => rfl) (by decide) (by decide) (by decide)
    (by decide) (by decide) (by decide) (by decide) (by decide)

/-! ### C4: abort discards the transaction -/

/-- C4 (amended).  Abort discards the buffered transaction: for a batch of
partial-transaction entries of session `s` followed by an
`abortTransaction` command for `s`, the session's partial-transaction
buffer is empty after the pass and none of the buffered partial entries
appears in any writer vector — but the `abortTransaction` command entry
itself is still routed, into writer `routeHash % numWriters`. -/
theorem fillWriterVectors_abort_discards {σ : Type} (env : FillEnv σ)
    (numWriters : Nat) (s : Nat) (partials : List OplogEntry)
    (abortOp : OplogEntry)
    (htr : ∀ t op', env.updateSession t op' = (t, none))
    (hfl : ∀ t, env.flushAll t = [])
    (hparts : ∀ op ∈ partials,
      ¬ opTimeLE op.opTime env.beginApplyingOpTime ∧
      (op.isPartialTransaction ||
        (op.shouldPrepare && env.mode = Mode.initialSync)) = true ∧
      op.sessionId = some s)
    (hfloorA : ¬ opTimeLE abortOp.opTime env.beginApplyingOpTime)
    (hpartA : (abortOp.isPartialTransaction ||
      (abortOp.shouldPrepare && env.mode = Mode.initialSync)) = false)
    (hcmdA : abortOp.opType = OpType.command)
    (habA : abortOp.commandType = CommandType.abortTransaction)
    (hsidA : abortOp.sessionId = some s)
    (htermA : abortOp.isTerminalApplyOps = false)
    (hprepA : (abortOp.isPreparedCommit && env.mode = Mode.initialSync) = false) :
    (fillWriterVectors env (partials ++ [abortOp]) numWriters).partialTxn s
      = [] ∧
    (∀ v ∈ (fillWriterVectors env (partials ++ [abortOp]) numWriters).wv,
      ∀ k, k < partials.length → OpRef.input k ∉ v) ∧
    (0 < numWriters →
      OpRef.input partials.length ∈
        (fillWriterVectors env (partials ++ [abortOp]) numWriters).wv.getD
          (routeHash env abortOp % numWriters) []) := by
  have henum : (partials ++ [abortOp]).enum =
      partials.enum ++ [(partials.length, abortOp)] := by
    rw [List.enum_append]
    rfl
  have hbparts : ∀ pr ∈ partials.enum,
      ¬ opTimeLE (pr.2 : OplogEntry).opTime env.beginApplyingOpTime ∧
      ((pr.2 : OplogEntry).isPartialTransaction ||
        ((pr.2 : OplogEntry).shouldPrepare && env.mode = Mode.initialSync)) = true ∧
      (pr.2 : OplogEntry).sessionId = some s := by
    intro pr hpr
    refine hparts pr.2 ?_
    obtain ⟨i, op⟩ := pr
    exact List.getElem?_mem (List.mk_mem_enum_iff_getElem?.mp hpr)
  obtain ⟨_, hb2⟩ :=
    deriveOpsLoop_buffer env true OpRef.input s htr partials.enum
      ⟨List.replicate numWriters [], [], fun _ => [], [], env.initTracker⟩
      hbparts
  have hb2' : (deriveOpsLoop env true OpRef.input partials.enum
      ⟨List.replicate numWriters [], [], fun _ => [], [], env.initTracker⟩).2 =
      ({ wv := List.replicate numWriters [], derived := [],
         partialTxn := (updFn (fun _ => []) s partials), cache := [],
         tr := env.initTracker } : LoopState σ) := by
    rw [hb2, List.enum_map_snd]
    rfl
  have habort_step :=
    deriveOneOp_abort env true OpRef.input partials.length s abortOp
      ({ wv := List.replicate numWriters [], derived := [],
         partialTxn := (updFn (fun _ => []) s partials), cache := [],
         tr := env.initTracker } : LoopState σ)
      htr hfloorA hpartA hcmdA habA hsidA htermA hprepA
  have hsplit := deriveOpsLoop_append env true OpRef.input partials.enum
    [(partials.length, abortOp)]
    ⟨List.replicate numWriters [], [], fun _ => [], [], env.initTracker⟩
  have hone : ∀ st : LoopState σ,
      (deriveOpsLoop env true OpRef.input [(partials.length, abortOp)] st).2 =
        (deriveOneOp env true OpRef.input partials.length abortOp st).2 :=
    fun st => rfl
  have hres : fillWriterVectors env (partials ++ [abortOp]) numWriters =
      secondPass env
        (deriveOpsLoop env true OpRef.input (partials ++ [abortOp]).enum
          ⟨List.replicate numWriters [], [], fun _ => [],
            [], env.initTracker⟩).2
        (deriveOpsLoop env true OpRef.input (partials ++ [abortOp]).enum
          ⟨List.replicate numWriters [], [], fun _ => [],
            [], env.initTracker⟩).1 := rfl
  have hnof := secondPass_noflush env
    (deriveOpsLoop env true OpRef.input (partials ++ [abortOp]).enum
      ⟨List.replicate numWriters [], [], fun _ => [], [], env.initTracker⟩).2
    (deriveOpsLoop env true OpRef.input (partials ++ [abortOp]).enum
      ⟨List.replicate numWriters [], [], fun _ => [], [], env.initTracker⟩).1
    (hfl _)
  refine ⟨?_, ?_, ?_⟩
  · rw [hres, hnof]
    show (deriveOpsLoop env true OpRef.input (partials ++ [abortOp]).enum
      ⟨List.replicate numWriters [], [], fun _ => [],
        [], env.initTracker⟩).2.partialTxn s = _
    rw [henum, hsplit, hone, hb2', habort_step]
    show updFn (updFn (fun _ => []) s partials) s [] s = _
    rw [updFn_read]
  · obtain ⟨_, _, m3, _, _⟩ :=
      fillWriterVectors_master env (partials ++ [abortOp]) numWriters
    intro v hv k hk hmem
    obtain ⟨w, _, hgd⟩ := mem_wv_getD _ v hv
    rw [← hgd] at hmem
    obtain ⟨op₀, hop₀, hr₀, _⟩ := m3 w (OpRef.input k) hmem k rfl
    rw [List.getElem?_append_left hk] at hop₀
    obtain ⟨hf, hp, _⟩ := hparts op₀ (List.getElem?_mem hop₀)
    exact hr₀ (routesTo_none_of_buffered env op₀ hf hp)
  · intro hpos
    obtain ⟨_, _, _, m4, _⟩ :=
      fillWriterVectors_master env (partials ++ [abortOp]) numWriters
    have hop : (partials ++ [abortOp])[partials.length]? = some abortOp := by
      rw [List.getElem?_append_right (le_refl partials.length)]
      simp
    exact m4 partials.length abortOp hop
      (by rw [routesTo_some_intro env abortOp hfloorA hpartA htermA hprepA]
          exact Option.some_ne_none _)
      hpos

/-- Counterexample to C4 as literally stated: after an `abortTransaction`
for session 5, the claim "fillWriterVectors routes zero ops for that
session" fails — the abort command entry itself (which carries the session
id) is routed into a writer vector. -/
theorem fillWriterVectors_abort_counterexample :
    ¬ (∀ i, i < 2 →
        ((([partialTxnOp, abortTxnOp] : List OplogEntry).getD i baseOp).sessionId
            = some 5 →
          ∀ v ∈ (fillWriterVectors cEnv [partialTxnOp, abortTxnOp] 1).wv,
            OpRef.input i ∉ v)) := by
  decide

/-- Witness for C4 (amended) at a concrete abort scenario. -/
theorem fillWriterVectors_abort_discards_witness :
    (fillWriterVectors cEnv ([partialTxnOp] ++ [abortTxnOp]) 1).partialTxn 5
      = [] ∧
    (∀ v ∈ (fillWriterVectors cEnv ([partialTxnOp] ++ [abortTxnOp]) 1).wv,
      ∀ k, k < ([partialTxnOp] : List OplogEntry).length →
        OpRef.input k ∉ v) ∧
    (0 < 1 →
      OpRef.input ([partialTxnOp] : List OplogEntry).length ∈
        (fillWriterVectors cEnv ([partialTxnOp] ++ [abortTxnOp]) 1).wv.getD
          (routeHash cEnv abortTxnOp % 1) []) :=
  fillWriterVectors_abort_discards cEnv 1 5 [partialTxnOp] abortTxnOp
    (fun _ _ => rfl) (fun _ => rfl) (by decide) (by decide) (by decide)
    (by decide) (by decide) (by decide) (by decide) (by decide)

/-! ### Lemmas about `stableSortByNamespace` -/

/-- The namespace ordering used by the sort's comparator. -/
def nsLE (a b : OplogEntry) : Prop := a.nss ≤ b.nss

theorem insertByNs_perm (a : OplogEntry) (l : List OplogEntry) :
    List.Perm (insertByNs a l) (a :: l) := by
  induction l with
  | nil => simp [insertByNs]
  | cons b t ih =>
    by_cases h : a.nss ≤ b.nss
    · simp [insertByNs, h]
    · simp only [insertByNs, if_neg h]
      exact (List.Perm.cons b ih).trans (List.Perm.swap a b t)

theorem insertByNs_sorted (a : OplogEntry) (l : List OplogEntry)
    (h : l.Sorted nsLE) : (insertByNs a l).Sorted nsLE := by
  induction l with
  | nil => simp [insertByNs, List.Sorted]
  | cons b t ih =>
    rw [List.sorted_cons] at h
    by_cases hab : a.nss ≤ b.nss
    · simp only [insertByNs, if_pos hab]
      rw [List.sorted_cons]
      refine ⟨?_, List.sorted_cons.mpr h⟩
      intro x hx
      rcases List.mem_cons.mp hx with rfl | hx
      · exact hab
      · exact le_trans hab (h.1 x hx)
    · simp only [insertByNs, if_neg hab]
      rw [List.sorted_cons]
      refine ⟨?_, ih h.2⟩
      intro x hx
      have hx' : x ∈ a :: t := (insertByNs_perm a t).mem_iff.mp hx
      rcases List.mem_cons.mp hx' with rfl | hxt
      · exact le_of_not_le hab
      · exact h.1 x hxt

theorem insertByNs_filter (a : OplogEntry) (l : List OplogEntry)
    (hl : l.Sorted nsLE) (n : String) :
    (insertByNs a l).filter (fun op => op.nss == n) =
      (a :: l).filter (fun op => op.nss == n) := by
  induction l with
  | nil => simp [insertByNs]
  | cons b t ih =>
    rw [List.sorted_cons] at hl
    by_cases hab : a.nss ≤ b.nss
    · simp [insertByNs, hab]
    · have hba : b.nss < a.nss := lt_of_not_le hab
      simp only [insertByNs, if_neg hab]
      by_cases hbn : b.nss = n
      · -- then a.nss ≠ n since b.nss < a.nss
        have han : ¬ (a.nss = n) := by
          intro hcontra
          exact absurd (hcontra ▸ hbn ▸ hba) (lt_irrefl _)
        simp only [List.filter_cons]
        simp only [beq_iff_eq, hbn, han, if_true, if_false]
        have := ih hl.2
        simp only [List.filter_cons, beq_iff_eq, han, if_false] at this
        simp [this, hbn]
      · simp only [List.filter_cons, beq_iff_eq, hbn, if_false]
        have := ih hl.2
        simp only [List.filter_cons, beq_iff_eq] at this ⊢
        rw [this]

theorem stableSortByNamespace_sorted (l : List OplogEntry) :
    (stableSortByNamespace l).Sorted nsLE := by
  induction l with
  | nil => simp [stableSortByNamespace, List.Sorted]
  | cons a t ih => exact insertByNs_sorted a _ ih

theorem stableSortByNamespace_perm (l : List OplogEntry) :
    List.Perm (stableSortByNamespace l) l := by
  induction l with
  | nil => simp [stableSortByNamespace]
  | cons a t ih =>
    exact (insertByNs_perm a _).trans (List.Perm.cons a ih)

theorem stableSortByNamespace_filter (l : List OplogEntry) (n : String) :
    (stableSortByNamespace l).filter (fun op => op.nss == n) =
      l.filter (fun op => op.nss == n) := by
  induction l with
  | nil => simp [stableSortByNamespace]
  | cons a t ih =>
    simp only [stableSortByNamespace]
    rw [insertByNs_filter a _ (stableSortByNamespace_sorted t) n]
    simp only [List.filter_cons]
    rw [ih]

/-- C9.  Stable namespace sort: after `stableSortByNamespace` the vector is
sorted by namespace; for any two ops with equal namespace the relative
order equals the pre-sort order (the subsequence of ops of each namespace
is exactly the input's subsequence for that namespace); and the result is
a permutation of the input vector. -/
theorem stableSortByNamespace_spec (l : List OplogEntry) :
    (stableSortByNamespace l).Sorted nsLE ∧
    (∀ n : String,
      (stableSortByNamespace l).filter (fun op => op.nss == n) =
        l.filter (fun op => op.nss == n)) ∧
    List.Perm (stableSortByNamespace l) l :=
  ⟨stableSortByNamespace_sorted l,
   fun n => stableSortByNamespace_filter l n,
   stableSortByNamespace_perm l⟩

/-! ### C6: syncApply NamespaceNotFound disposition -/

/-- C6.  If applying a CRUD op raises `NamespaceNotFound` (missing database
or collection), `syncApply` returns OK iff the op is a delete or the mode
is recovering; otherwise the exception is annotated with the redacted op
and re-thrown. -/
theorem syncApply_namespaceNotFound (mode : Mode) (op : OplogEntry)
    (rest : List OpOutcome) (h : op.isCrudOpType = true) :
    (syncApply mode op (OpOutcome.exn ErrorCode.namespaceNotFound false :: rest)
        = some OpOutcome.ok
      ↔ (op.opType = OpType.delete ∨ mode = Mode.recovering)) ∧
    (¬ (op.opType = OpType.delete ∨ mode = Mode.recovering) →
      syncApply mode op (OpOutcome.exn ErrorCode.namespaceNotFound false :: rest)
        = some (OpOutcome.exn ErrorCode.namespaceNotFound true)) := by
  cases hop : op.opType with
  | noop => simp [OplogEntry.isCrudOpType, hop] at h
  | command => simp [OplogEntry.isCrudOpType, hop] at h
  | insert =>
    cases mode <;> simp [syncApply, hop, crudAttempt, writeConflictRetryList]
  | update =>
    cases mode <;> simp [syncApply, hop, crudAttempt, writeConflictRetryList]
  | delete =>
    cases mode <;> simp [syncApply, hop, crudAttempt, writeConflictRetryList]

/-- Witness for C6 at a concrete update op in secondary mode. -/
theorem syncApply_namespaceNotFound_witness :
    ((syncApply Mode.secondary { baseOp with opType := OpType.update }
        [OpOutcome.exn ErrorCode.namespaceNotFound false] = some OpOutcome.ok
      ↔ ({ baseOp with opType := OpType.update }.opType = OpType.delete ∨
          Mode.secondary = Mode.recovering)) ∧
     (¬ ({ baseOp with opType := OpType.update }.opType = OpType.delete ∨
          Mode.secondary = Mode.recovering) →
       syncApply Mode.secondary { baseOp with opType := OpType.update }
         [OpOutcome.exn ErrorCode.namespaceNotFound false]
         = some (OpOutcome.exn ErrorCode.namespaceNotFound true))) :=
  syncApply_namespaceNotFound Mode.secondary
    { baseOp with opType := OpType.update } [] (by decide)

/-! ### C7: worker error suppression in multiSyncApply -/

/-- C7.  When no insert group forms, the worker applies each op of the
(namespace-sorted) vector individually; a non-OK outcome is skipped
exactly when it is an `UpdateOperationFailed` status in initial-sync mode
or a thrown `NamespaceNotFound` on a CRUD op with
`allowNamespaceNotFoundErrorsOnCrudOps` set (`haltsOn` is false), and the
first other non-OK outcome stops the worker, which returns that outcome's
status. -/
theorem multiSyncApply_error_policy (mode : Mode) (allowNNF : Bool)
    (group : List OplogEntry → Option Nat)
    (applyRes : OplogEntry → OpOutcome) (ops : List OplogEntry)
    (hg : ∀ l, group l = none) :
    multiSyncApply mode allowNNF group applyRes ops =
      (match (stableSortByNamespace ops).find?
          (fun op => haltsOn mode allowNNF op (applyRes op)) with
       | none => WorkerStatus.ok
       | some op => statusOfOutcome (applyRes op)) := by
  unfold multiSyncApply
  generalize stableSortByNamespace ops = l
  induction l with
  | nil => simp [multiSyncApplyLoop]
  | cons op rest ih =>
    rw [multiSyncApplyLoop]
    rw [hg]
    cases hres : applyRes op with
    | ok => simpa [List.find?_cons, haltsOn, hres] using ih
    | err c =>
      by_cases hc1 : c = ErrorCode.updateOperationFailed
      · by_cases hc2 : mode = Mode.initialSync
        · simpa [List.find?_cons, haltsOn, hres, hc1, hc2] using ih
        · simp [List.find?_cons, haltsOn, hres, hc1, hc2, statusOfOutcome]
      · simp [List.find?_cons, haltsOn, hres, hc1, statusOfOutcome]
    | exn c a =>
      by_cases hc1 : c = ErrorCode.namespaceNotFound
      · by_cases hc2 : op.isCrudOpType = true
        · by_cases hc3 : allowNNF = true
          · simpa [List.find?_cons, haltsOn, hres, hc1, hc2, hc3] using ih
          · simp [List.find?_cons, haltsOn, hres, hc1, hc2, hc3, statusOfOutcome]
        · simp [List.find?_cons, haltsOn, hres, hc1, hc2, statusOfOutcome]
      · simp [List.find?_cons, haltsOn, hres, hc1, statusOfOutcome]

/-- Witness for C7: a worker vector with an initial-sync-suppressed update
failure followed by applies that succeed. -/
theorem multiSyncApply_error_policy_witness :
    multiSyncApply Mode.initialSync false (fun _ => none)
      (fun op => if op.opType = OpType.update then
          OpOutcome.err ErrorCode.updateOperationFailed else OpOutcome.ok)
      [{ baseOp with opType := OpType.update }, baseOp] =
      (match (stableSortByNamespace
            [{ baseOp with opType := OpType.update }, baseOp]).find?
          (fun op => haltsOn Mode.initialSync false op
            (if op.opType = OpType.update then
              OpOutcome.err ErrorCode.updateOperationFailed else OpOutcome.ok)) with
       | none => WorkerStatus.ok
       | some op => statusOfOutcome
          (if op.opType = OpType.update then
            OpOutcome.err ErrorCode.updateOperationFailed else OpOutcome.ok)) :=
  multiSyncApply_error_policy Mode.initialSync false (fun _ => none)
    (fun op => if op.opType = OpType.update then
        OpOutcome.err ErrorCode.updateOperationFailed else OpOutcome.ok)
    [{ baseOp with opType := OpType.update }, baseOp] (fun _ => rfl)

/-! ### C2: routing determinism -/

/-- C2.  Routing determinism: two runs of `fillWriterVectors` on the same
input batch, worker count, and environment (catalog state, hash functions,
engine capabilities, tracker behavior) produce identical writer vectors,
derived ops and op mutations.  The embedding makes the purity of the
source pass explicit: its output is a function of `(env, ops, numWriters)`
alone. -/
theorem fillWriterVectors_deterministic {σ : Type} (env₁ env₂ : FillEnv σ)
    (ops₁ ops₂ : List OplogEntry) (w₁ w₂ : Nat)
    (henv : env₁ = env₂) (hops : ops₁ = ops₂) (hw : w₁ = w₂) :
    fillWriterVectors env₁ ops₁ w₁ = fillWriterVectors env₂ ops₂ w₂ := by
  subst henv; subst hops; subst hw; rfl

/-- Witness for C2 at a concrete batch. -/
theorem fillWriterVectors_deterministic_witness :
    fillWriterVectors cEnv [baseOp, { baseOp with idElem := 2 }] 2 =
      fillWriterVectors cEnv [baseOp, { baseOp with idElem := 2 }] 2 :=
  fillWriterVectors_deterministic cEnv cEnv _ _ 2 2 rfl rfl rfl

end SyncTail
